import Mathlib

/-!
Shallow embedding of `src/ckpool_parser.py` (CKPool log/ledger -> SQLite + live
state).  Python floats are modelled as exact rationals (ℚ); SQLite tables are
modelled as Lean lists of rows, with upserts replacing the first row matching
the primary key; byte offsets into the log file are modelled at line
granularity (the incremental reader consumes whole lines).  Wall-clock capture
time (`datetime.utcnow()`) is passed in explicitly as a `now : Int` parameter.
-/

namespace CKP

/- The Batteries rational operations are `@[irreducible]`, which blocks
`decide`-style evaluation of concrete hashrate arithmetic; restore the default
transparency for them within this development. -/
attribute [local semireducible] Rat.mul Rat.add Rat.inv Rat.sub Rat.ofScientific

/-- Python `str.strip()` whitespace set (space, tab, newline, carriage return,
vertical tab, form feed). -/
def isWsChar (c : Char) : Bool :=
  c = ' ' || c = '\t' || c = '\n' || c = '\r' || c = '\x0b' || c = '\x0c'

/-- Python `str.strip(chars)`: drop characters satisfying `p` from both ends. -/
def pyStripList (p : Char → Bool) (l : List Char) : List Char :=
  ((l.dropWhile p).reverse.dropWhile p).reverse

/-- Python `str.strip()` on a `String`. -/
def pyStrip (s : String) : String :=
  ⟨pyStripList isWsChar s.data⟩

/-- Does `l` start with the pattern `p`? (used to model Python `in` / regex
literal matching). -/
def startsWithL : List Char → List Char → Bool
  | [], _ => true
  | _ :: _, [] => false
  | a :: as, b :: bs => a = b && startsWithL as bs

/-- Does `p` occur as a contiguous sublist of `l`?  Models Python `p in s`. -/
def hasSub (p : List Char) : List Char → Bool
  | [] => startsWithL p []
  | c :: t => startsWithL p (c :: t) || hasSub p t

/-- Python `sub in s` on strings. -/
def strContains (s sub : String) : Bool := hasSub sub.data s.data

/-- Decimal digit run to a natural number. -/
def digitsToNat (l : List Char) : ℕ :=
  l.foldl (fun a c => a * 10 + (c.toNat - 48)) 0

/-- ASCII decimal digit (numeric form of `[0-9]` / `Char.isDigit`, kept on
`Char.toNat` so that range facts reduce to arithmetic). -/
def isDigitCh (c : Char) : Bool := 48 ≤ c.toNat && c.toNat ≤ 57

/-- `A`-`Z` (numeric form). -/
def isUpperAZ (c : Char) : Bool := 65 ≤ c.toNat && c.toNat ≤ 90

/-- Truncation toward zero, as Python `int()` applied to a float. -/
def ratTrunc (q : ℚ) : ℤ :=
  if q ≥ 0 then ⌊q⌋ else -⌊-q⌋

/-- Round to the nearest integer, ties to even — the rounding used by Python
float formatting (idealised over exact rationals). -/
def roundHalfEvenQ (q : ℚ) : ℤ :=
  let f := ⌊q⌋
  let r := q - f
  if r < 1/2 then f
  else if 1/2 < r then f + 1
  else if f % 2 = 0 then f else f + 1

/-- Python `f"{q:.2f}"` over exact rationals. -/
def fmt2 (q : ℚ) : String :=
  let n := roundHalfEvenQ (q * 100)
  let a := n.natAbs
  let s := toString (a / 100) ++ "." ++ (if a % 100 < 10 then "0" else "") ++ toString (a % 100)
  if q < 0 then "-" ++ s else s

/-- Python `f"{q:.0f}"` over exact rationals. -/
def fmt0 (q : ℚ) : String :=
  let n := roundHalfEvenQ q
  if q < 0 ∧ n = 0 then "-0" else toString n

/-- `_human_hashrate`: largest unit of which the value is at least one, two
decimals; below 1K a bare rounded integer. -/
def _human_hashrate (hs : ℚ) : String :=
  if hs ≥ 1000000000000000000 then fmt2 (hs / 1000000000000000000) ++ "E"
  else if hs ≥ 1000000000000000 then fmt2 (hs / 1000000000000000) ++ "P"
  else if hs ≥ 1000000000000 then fmt2 (hs / 1000000000000) ++ "T"
  else if hs ≥ 1000000000 then fmt2 (hs / 1000000000) ++ "G"
  else if hs ≥ 1000000 then fmt2 (hs / 1000000) ++ "M"
  else if hs ≥ 1000 then fmt2 (hs / 1000) ++ "K"
  else fmt0 hs

/-- Split a character list at its first `'.'` (if any). -/
def splitFirstDot : List Char → List Char × Option (List Char)
  | [] => ([], none)
  | c :: t =>
    if c = '.' then ([], some t)
    else
      let (a, b) := splitFirstDot t
      (c :: a, b)

/-- Full match of the numeric part `[0-9]*\.?[0-9]+` of the hashrate regex. -/
def numREOk (l : List Char) : Bool :=
  match splitFirstDot l with
  | (a, none) => !a.isEmpty && a.all isDigitCh
  | (a, some f) => a.all isDigitCh && !f.isEmpty && f.all isDigitCh

/-- Value of a string matching `numREOk` (digits, optionally with one dot). -/
def numVal (l : List Char) : ℚ :=
  match splitFirstDot l with
  | (a, none) => digitsToNat a
  | (a, some f) => (digitsToNat a : ℚ) + (digitsToNat f : ℚ) / 10 ^ f.length

/-- Optional sign in front of the exponent digits. -/
def expSign : List Char → ℤ × List Char
  | '+' :: t => (1, t)
  | '-' :: t => (-1, t)
  | t => (1, t)

/-- Exponent suffix of a Python float literal (after the mantissa). -/
def pyFloatExp (m : ℚ) (r : List Char) : Option ℚ :=
  match r with
  | [] => some m
  | c :: r2 =>
    if c = 'e' || c = 'E' then
      let sg := expSign r2
      let ds := sg.2.takeWhile isDigitCh
      if ds.isEmpty || !(sg.2.dropWhile isDigitCh).isEmpty then none
      else some (m * (10 : ℚ) ^ (sg.1 * (digitsToNat ds : ℤ)))
    else none

/-- Unsigned Python float literal: `digits [. digits] [exp]` or `. digits [exp]`.
Underscore digit separators and the non-finite literals inf/nan are outside
this exact-rational embedding. -/
def pyFloatCore (l : List Char) : Option ℚ :=
  let ip := l.takeWhile isDigitCh
  let r1 := l.dropWhile isDigitCh
  match r1 with
  | '.' :: r2 =>
    let fp := r2.takeWhile isDigitCh
    let r3 := r2.dropWhile isDigitCh
    if ip.isEmpty && fp.isEmpty then none
    else pyFloatExp ((digitsToNat ip : ℚ) + (digitsToNat fp : ℚ) / 10 ^ fp.length) r3
  | _ => if ip.isEmpty then none else pyFloatExp (digitsToNat ip) r1

/-- Python `float(s)` on an already-stripped string (sign handling). -/
def pyFloatQ (l : List Char) : Option ℚ :=
  match l with
  | '+' :: t => pyFloatCore t
  | '-' :: t => (pyFloatCore t).map (fun q => -q)
  | t => pyFloatCore t

/-- `UNIT_MAP` lookup with the source's default multiplier 1.0 for suffixes not
in the map. -/
def unitMult (u : List Char) : ℚ :=
  if u = [] || u = ['H'] then 1
  else if u = ['K'] || u = ['K', 'H'] then 1000
  else if u = ['M'] || u = ['M', 'H'] then 1000000
  else if u = ['G'] || u = ['G', 'H'] then 1000000000
  else if u = ['T'] || u = ['T', 'H'] then 1000000000000
  else if u = ['P'] || u = ['P', 'H'] then 1000000000000000
  else if u = ['E'] || u = ['E', 'H'] then 1000000000000000000
  else 1

/-- Body of `_parse_hashrate_to_hs` after normalisation (strip/upper/replace):
dash or empty gives 0; then `float(s)`; then the anchored regex
`([0-9]*\.?[0-9]+)([A-Z]{0,2})$` with the `UNIT_MAP` multiplier. -/
def parseHashrateCore (l : List Char) : ℚ :=
  if l = [] || l = ['—'] || l = ['-'] then 0
  else
    match pyFloatQ l with
    | some q => q
    | none =>
      let u := (l.reverse.takeWhile isUpperAZ).reverse
      let n := l.take (l.length - u.length)
      if u.length ≤ 2 && numREOk n then numVal n * unitMult u else 0

/-- `_parse_hashrate_to_hs` on a string argument: strip, uppercase, remove
spaces, then `parseHashrateCore`. -/
def parseHashrateStr (s : String) : ℚ :=
  parseHashrateCore (((pyStripList isWsChar s.data).map Char.toUpper).filter (fun c => c ≠ ' '))

/-- SQLite scalar values as they occur in this pipeline (numbers and text);
`none` at use sites stands for SQL NULL / absent JSON keys. -/
inductive SV
  | num (q : ℚ)
  | text (s : String)
deriving DecidableEq

/-- `_parse_hashrate_to_hs` on `None` / numeric / string inputs. -/
def _parse_hashrate_to_hs : Option SV → ℚ
  | none => 0
  | some (SV.num q) => q
  | some (SV.text s) => parseHashrateStr s

/-- Character class `[A-Za-z0-9_\-\.]` of `WORKER_RE`. -/
def workerNameChar (c : Char) : Bool :=
  ('A' ≤ c && c ≤ 'Z') || ('a' ≤ c && c ≤ 'z') || c.isDigit || c = '_' || c = '-' || c = '.'

/-- `re.fullmatch(WORKER_RE, w)`: 1–64 characters of the worker class. -/
def workerNameOk (s : String) : Bool :=
  1 ≤ s.length && s.length ≤ 64 && s.data.all workerNameChar

/-- Python `"..." in s`. -/
def hasTripleDot (s : String) : Bool := hasSub ['.', '.', '.'] s.data

/-- The stripping `_clean_worker` performs before its checks:
`.strip()` then `.strip(". ")` then `.strip()`. -/
def stripPy (s : String) : String :=
  ⟨pyStripList isWsChar (pyStripList (fun c => c = '.' || c = ' ') (pyStripList isWsChar s.data))⟩

/-- `_clean_worker`: normalise a worker-name candidate, sentinel `"X"` when
rejected. -/
def _clean_worker : Option String → String → String
  | none, _ => "X"
  | some w0, wallet =>
    let w := stripPy w0
    if w = "" ∨ w = wallet ∨ hasTripleDot w = true ∨ 64 < w.length then "X"
    else if workerNameOk w then w else "X"

/-- Does `l` end with the pattern `p`? -/
def endsWithL (p l : List Char) : Bool := startsWithL p.reverse l.reverse

/-- `_contains_truncator`: `"..." in s or s.endswith("...") or s.startswith("...")`
(the last two are redundant with the first, mirrored anyway). -/
def _contains_truncator : Option String → Bool
  | none => false
  | some s =>
    hasSub ['.', '.', '.'] s.data || endsWithL ['.', '.', '.'] s.data
      || startsWithL ['.', '.', '.'] s.data

/-- One `workers_seen` row. -/
structure WRow where
  wallet : String
  worker : String
  last_seen : Int
  active : Bool
deriving DecidableEq

/-- Row-wise effect of
`UPDATE workers_seen SET active=0 WHERE active=1 AND (now - last_seen) > timeout`. -/
def expireWRow (now timeout : Int) (r : WRow) : WRow :=
  if r.active = true ∧ now - r.last_seen > timeout then { r with active := false } else r

/-- JSON values as produced by `json.loads` (string escape sequences are not
modelled: payloads containing them parse to `none`). -/
inductive J
  | jnull
  | jbool (b : Bool)
  | jnum (q : ℚ)
  | jstr (s : String)
  | jarr (l : List J)
  | jobj (kvs : List (String × J))

/-- Python truthiness of a JSON value (`None`, `False`, `0`, `""`, `[]`, `{ }`
are falsy). -/
def jTruthy : J → Bool
  | J.jnull => false
  | J.jbool b => b
  | J.jnum q => q ≠ 0
  | J.jstr s => s ≠ ""
  | J.jarr l => !l.isEmpty
  | J.jobj kvs => !kvs.isEmpty

/-- `d.get(k)` on a parsed JSON object; with duplicate keys `json.loads` keeps
the last occurrence. -/
def jGet (v : J) (k : String) : Option J :=
  match v with
  | J.jobj kvs => (kvs.reverse.find? (fun p => p.1 = k)).map (fun p => p.2)
  | _ => none

/-- `k in d`. -/
def jHas (v : J) (k : String) : Bool := (jGet v k).isSome

/-- JSON whitespace. -/
def isJsonWs (c : Char) : Bool := c = ' ' || c = '\t' || c = '\n' || c = '\r'

/-- One JSON string literal body (no escapes modelled). -/
def parseJStr (l : List Char) : Option (String × List Char) :=
  let body := l.takeWhile (fun c => c ≠ '"' && c ≠ '\\')
  match l.drop body.length with
  | '"' :: r => some (⟨body⟩, r)
  | _ => none

/-- JSON number `-?digits(.digits)?([eE][+-]?digits)?`. -/
def parseJNum (l : List Char) : Option (ℚ × List Char) :=
  let (sg, l1) : ℚ × List Char := match l with | '-' :: t => (-1, t) | t => (1, t)
  let ip := l1.takeWhile Char.isDigit
  if ip.isEmpty then none
  else
    let l2 := l1.drop ip.length
    let (fq, l3) : ℚ × List Char :=
      match l2 with
      | '.' :: t =>
        let fp := t.takeWhile Char.isDigit
        ((digitsToNat fp : ℚ) / 10 ^ fp.length, t.drop fp.length)
      | _ => (0, l2)
    let m : ℚ := sg * ((digitsToNat ip : ℚ) + fq)
    match l3 with
    | c :: t =>
      if c = 'e' || c = 'E' then
        let se : ℤ × List Char := match t with | '+' :: u => (1, u) | '-' :: u => (-1, u) | u => (1, u)
        let ds := se.2.takeWhile Char.isDigit
        if ds.isEmpty then none
        else some (m * (10 : ℚ) ^ (se.1 * (digitsToNat ds : ℤ)), se.2.drop ds.length)
      else some (m, l3)
    | [] => some (m, [])

mutual

/-- Fuel-bounded JSON value. -/
def parseJVal : Nat → List Char → Option (J × List Char)
  | 0, _ => none
  | fuel + 1, l =>
    match l.dropWhile isJsonWs with
    | '{' :: r => parseJObj fuel (r.dropWhile isJsonWs)
    | '[' :: r => parseJArr fuel (r.dropWhile isJsonWs)
    | '"' :: r => (parseJStr r).map (fun p => (J.jstr p.1, p.2))
    | 't' :: 'r' :: 'u' :: 'e' :: r => some (J.jbool true, r)
    | 'f' :: 'a' :: 'l' :: 's' :: 'e' :: r => some (J.jbool false, r)
    | 'n' :: 'u' :: 'l' :: 'l' :: r => some (J.jnull, r)
    | r => (parseJNum r).map (fun p => (J.jnum p.1, p.2))

/-- Object body after `{` (leading whitespace consumed). -/
def parseJObj : Nat → List Char → Option (J × List Char)
  | 0, _ => none
  | fuel + 1, l =>
    match l with
    | '}' :: r => some (J.jobj [], r)
    | _ => parseJObjItems (fuel + 1) l []

/-- Comma-separated `"key": value` items, accumulator in order. -/
def parseJObjItems : Nat → List Char → List (String × J) → Option (J × List Char)
  | 0, _, _ => none
  | fuel + 1, l, acc =>
    match l with
    | '"' :: r =>
      match parseJStr r with
      | none => none
      | some (k, r2) =>
        match r2.dropWhile isJsonWs with
        | ':' :: r3 =>
          match parseJVal fuel r3 with
          | none => none
          | some (v, r4) =>
            match r4.dropWhile isJsonWs with
            | ',' :: r5 => parseJObjItems fuel (r5.dropWhile isJsonWs) (acc ++ [(k, v)])
            | '}' :: r5 => some (J.jobj (acc ++ [(k, v)]), r5)
            | _ => none
        | _ => none
    | _ => none

/-- Array body after `[` (leading whitespace consumed). -/
def parseJArr : Nat → List Char → Option (J × List Char)
  | 0, _ => none
  | fuel + 1, l =>
    match l with
    | ']' :: r => some (J.jarr [], r)
    | _ => parseJArrItems (fuel + 1) l []

/-- Comma-separated array values. -/
def parseJArrItems : Nat → List Char → List J → Option (J × List Char)
  | 0, _, _ => none
  | fuel + 1, l, acc =>
    match parseJVal fuel l with
    | none => none
    | some (v, r) =>
      match r.dropWhile isJsonWs with
      | ',' :: r2 => parseJArrItems fuel (r2.dropWhile isJsonWs) (acc ++ [v])
      | ']' :: r2 => some (J.jarr (acc ++ [v]), r2)
      | _ => none

end

/-- `json.loads` on a whole payload (must consume everything). -/
def jsonLoads (l : List Char) : Option J :=
  match parseJVal (l.length + 1) l with
  | some (v, r) => if (r.dropWhile isJsonWs).isEmpty then some v else none
  | none => none

/-- JSON value to an SQLite binding: `none` is SQL NULL; containers cannot be
bound (the caller's `execute` raises, modelled as `none` at the call site). -/
def jToSV : J → Option (Option SV)
  | J.jnull => some none
  | J.jbool b => some (some (SV.num (if b then 1 else 0)))
  | J.jnum q => some (some (SV.num q))
  | J.jstr s => some (some (SV.text s))
  | J.jarr _ => none
  | J.jobj _ => none

/-- The 19 non-key columns of `pool_metrics`. -/
inductive PMField
  | hashrate1m | hashrate5m | hashrate15m | hashrate1hr | hashrate6hr | hashrate1d | hashrate7d
  | runtime | lastupdate | users | workers | idle | disconnected
  | accepted | rejected | bestshare | sps1m | sps5m | diff
deriving DecidableEq

/-- One `pool_metrics` row (also the parsed record bound into the upsert:
`none` is an absent key or JSON null, both binding SQL NULL). -/
structure PRow where
  ts : Int
  vals : PMField → Option SV

/-- One `user_stats` row, mirroring the table columns. -/
structure URow where
  address : String
  ts : Int
  hashrate1m : Option SV
  hashrate5m : Option SV
  hashrate1hr : Option SV
  hashrate1d : Option SV
  hashrate7d : Option SV
  lastshare : Option SV
  workers : Option SV
  shares : Option SV
  bestshare : Option SV
  bestever : Option SV
  authorised : Option SV
deriving DecidableEq

/-- One `shares` row (the autoincrement id is the list position). -/
structure ShareRow where
  ts : Int
  status : String
  address : String
  worker : Option String
  rawdiff : String
  scaled : Option ℚ
  ip : Option String
deriving DecidableEq

/-- The SQLite store.  Lists keep insertion order; upserts replace the first
row with the matching primary key in place.  `meta` holds the per-log-file
cursor: the source stores it as decimal TEXT and reads it back with
`isdigit()`/`int()`, an exact round-trip modelled by storing the `Nat`. -/
structure DB where
  pool_metrics : List PRow
  user_stats : List URow
  workers_seen : List WRow
  shares : List ShareRow
  meta : List (String × Nat)

/-- Freshly initialised store (`init_db` creates empty tables). -/
def emptyDB : DB := ⟨[], [], [], [], []⟩

/-- `INSERT INTO user_stats ... ON CONFLICT(address) DO UPDATE SET` every
column from the excluded row (wholesale replace). -/
def upsertURow : List URow → URow → List URow
  | [], r => [r]
  | x :: xs, r => if x.address = r.address then r :: xs else x :: upsertURow xs r

/-- `upsert_worker_seen`: keyed by `(wallet, worker)`, sets `last_seen` and
`active` from the incoming values. -/
def upsertWRow : List WRow → WRow → List WRow
  | [], r => [r]
  | x :: xs, r =>
    if x.wallet = r.wallet ∧ x.worker = r.worker then r :: xs else x :: upsertWRow xs r

def upsert_worker_seen (db : DB) (wallet worker : String) (ts : Int) (active : Bool) : DB :=
  { db with workers_seen := upsertWRow db.workers_seen ⟨wallet, worker, ts, active⟩ }

/-- `upsert_pool_metrics`: keyed by `ts`; on conflict each column becomes
`COALESCE(excluded.c, c)` — the incoming value when non-null, else the stored
one. -/
def upsertPRow : List PRow → PRow → List PRow
  | [], r => [r]
  | x :: xs, r =>
    if x.ts = r.ts then
      { ts := x.ts,
        vals := fun f => match r.vals f with
          | some v => some v
          | none => x.vals f } :: xs
    else x :: upsertPRow xs r

def upsert_pool_metrics (db : DB) (rec : PRow) : DB :=
  { db with pool_metrics := upsertPRow db.pool_metrics rec }

/-- First `pool_metrics` row with the given timestamp. -/
def lookupPM (t : List PRow) (ts : Int) : Option PRow :=
  t.find? (fun r => r.ts = ts)

/-- `meta` upsert (`INSERT ... ON CONFLICT(key) DO UPDATE SET value`). -/
def upsertMeta : List (String × Nat) → String → Nat → List (String × Nat)
  | [], k, v => [(k, v)]
  | (k0, v0) :: t, k, v =>
    if k0 = k then (k, v) :: t else (k0, v0) :: upsertMeta t k v

def set_meta (db : DB) (k : String) (v : Nat) : DB :=
  { db with meta := upsertMeta db.meta k v }

def get_meta (db : DB) (k : String) : Option Nat :=
  (db.meta.find? (fun p => p.1 = k)).map (fun p => p.2)

/-- `expire_stale_workers`: the `UPDATE` applied row-wise over the table. -/
def expire_stale_workers (db : DB) (now_ts timeout_s : Int) : DB :=
  { db with workers_seen := db.workers_seen.map (expireWRow now_ts timeout_s) }

/-- Append an accepted/rejected share record (plain `INSERT`). -/
def insertShare (db : DB) (r : ShareRow) : DB :=
  { db with shares := db.shares ++ [r] }

/-- Gregorian leap year. -/
def isLeapY (y : Int) : Bool := (y % 4 = 0 && y % 100 ≠ 0) || y % 400 = 0

/-- Length of a month, as validated by `datetime`. -/
def daysInMonth (y m : Int) : Int :=
  if m = 2 then (if isLeapY y then 29 else 28)
  else if m = 4 ∨ m = 6 ∨ m = 9 ∨ m = 11 then 30
  else 31

/-- Days from the civil epoch 1970-01-01 (standard era-based formula). -/
def daysFromCivil (y m d : Int) : Int :=
  let y2 := if m ≤ 2 then y - 1 else y
  let era := (if 0 ≤ y2 then y2 else y2 - 399) / 400
  let yoe := y2 - era * 400
  let mp := (m + 9) % 12
  let doy := (153 * mp + 2) / 5 + d - 1
  let doe := yoe * 365 + yoe / 4 - yoe / 100 + doy
  era * 146097 + doe - 719468

/-- Take 1 to `maxN` leading digits as a number. -/
def takeDigitsUpTo (maxN : Nat) (l : List Char) : Option (Int × List Char) :=
  let ds := (l.takeWhile Char.isDigit).take maxN
  if ds.isEmpty then none else some ((digitsToNat ds : Int), l.drop ds.length)

/-- Field validation performed by the `datetime` constructor. -/
def dtFieldsOk (l : List Char) (y mo d h mi s : Int) : Bool :=
  l.isEmpty && 1 ≤ y && 1 ≤ mo && mo ≤ 12 && 1 ≤ d && d ≤ daysInMonth y mo
    && h ≤ 23 && mi ≤ 59 && s ≤ 59

/-- `Y-M-D H:M:S[.f]` to epoch seconds, mirroring the `TS_FORMATS` strptime
attempts (fields validated as by `datetime`; fractional seconds are dropped by
the `int()` truncation; the source interprets the naive datetime in the local
timezone, idealised here as UTC; the broader `fromisoformat` fallback beyond
this common grammar is abstracted). -/
def parseDateTime (l : List Char) : Option Int :=
  (takeDigitsUpTo 4 l).bind fun py =>
  (match py.2 with | '-' :: t => some t | _ => none).bind fun l =>
  (takeDigitsUpTo 2 l).bind fun pmo =>
  (match pmo.2 with | '-' :: t => some t | _ => none).bind fun l =>
  (takeDigitsUpTo 2 l).bind fun pd =>
  (match pd.2 with | ' ' :: t => some t | _ => none).bind fun l =>
  (takeDigitsUpTo 2 l).bind fun ph =>
  (match ph.2 with | ':' :: t => some t | _ => none).bind fun l =>
  (takeDigitsUpTo 2 l).bind fun pmi =>
  (match pmi.2 with | ':' :: t => some t | _ => none).bind fun l =>
  (takeDigitsUpTo 2 l).bind fun ps =>
  (match ps.2 with
    | '.' :: t =>
      let fs := t.takeWhile Char.isDigit
      if fs.isEmpty ∨ 6 < fs.length then none else some (t.drop fs.length)
    | t => some t).bind fun l =>
  if dtFieldsOk l py.1 pmo.1 pd.1 ph.1 pmi.1 ps.1 then
    some (daysFromCivil py.1 pmo.1 pd.1 * 86400 + ph.1 * 3600 + pmi.1 * 60 + ps.1)
  else none

/-- `parse_bracket_ts`: absent or unparseable timestamps fall back to "now". -/
def parse_bracket_ts (v : Option (List Char)) (now : Int) : Int :=
  match v with
  | none => now
  | some ts =>
    match parseDateTime (pyStripList isWsChar ts) with
    | some t => t
    | none => now

/-- Character class `[\d\-:\. ]` of the bracketed-timestamp group. -/
def tsClass (c : Char) : Bool :=
  c.isDigit || c = '-' || c = ':' || c = '.' || c = ' '

/-- The optional `(?:\[(?P<ts>[\d\-:\. ]+)\]\s*)?` prefix: returns the captured
timestamp text and the remainder, or leaves the line untouched when the
bracketed group does not match (in which case the following literal fails on
`[` exactly as the regex does). -/
def splitTsPrefix (l : List Char) : Option (List Char) × List Char :=
  match l with
  | '[' :: t =>
    let content := t.takeWhile tsClass
    (match t.drop content.length with
     | ']' :: r =>
       if content.isEmpty then (none, l) else (some content, r.dropWhile isWsChar)
     | _ => (none, l))
  | _ => (none, l)

/-- Regex `\w` (ASCII scope, which covers every character the address and
worker classes can produce). -/
def isWordChar (c : Char) : Bool :=
  ('A' ≤ c && c ≤ 'Z') || ('a' ≤ c && c ≤ 'z') || c.isDigit || c = '_'

/-- ASCII letter. -/
def isAsciiAlpha (c : Char) : Bool := ('A' ≤ c && c ≤ 'Z') || ('a' ≤ c && c ≤ 'z')

/-- `[a-km-zA-HJ-NP-Z1-9]` under `re.IGNORECASE`: the two case ranges union to
every ASCII letter, plus the digits 1-9. -/
def addr58ci (c : Char) : Bool := isAsciiAlpha c || ('1' ≤ c && c ≤ '9')

/-- `[0-9ac-hj-np-z]` under `re.IGNORECASE`: digits plus every letter except
b, i, o in either case. -/
def bechci (c : Char) : Bool :=
  c.isDigit ||
    (let lc := c.toLower
     lc = 'a' || ('c' ≤ lc && lc ≤ 'h') || ('j' ≤ lc && lc ≤ 'n') || ('p' ≤ lc && lc ≤ 'z'))

/-- The base alternation of `ADDR_RE` (without the optional `...` suffix):
`[13][a-km-zA-HJ-NP-Z1-9]{5,}` or `[tb]?c1[0-9ac-hj-np-z]{5,}` (case
insensitive), greedy.  Returns the consumed characters and the rest. -/
def parseAddrBase (l : List Char) : Option (List Char × List Char) :=
  match l with
  | [] => none
  | c :: t =>
    if c = '1' ∨ c = '3' then
      let run := t.takeWhile addr58ci
      if 5 ≤ run.length then some (c :: run, t.drop run.length) else none
    else
      let pre : List Char × List Char :=
        if c = 't' ∨ c = 'T' ∨ c = 'b' ∨ c = 'B' then ([c], t) else ([], l)
      match pre.2 with
      | c2 :: '1' :: t2 =>
        if c2 = 'c' ∨ c2 = 'C' then
          let run := t2.takeWhile bechci
          if 5 ≤ run.length then some (pre.1 ++ c2 :: '1' :: run, t2.drop run.length) else none
        else none
      | _ => none

/-- Consume a case-insensitive literal (pattern given in lowercase). -/
def eatLitCI : List Char → List Char → Option (List Char)
  | [], l => some l
  | _ :: _, [] => none
  | p :: ps, c :: cs => if c.toLower = p then eatLitCI ps cs else none

/-- `\s+` (greedy). -/
def eatWs1 (l : List Char) : Option (List Char) :=
  match l with
  | c :: t => if isWsChar c then some (t.dropWhile isWsChar) else none
  | [] => none

/-- `\d+` (greedy). -/
def eatDigits1 (l : List Char) : Option (List Char × List Char) :=
  let ds := l.takeWhile Char.isDigit
  if ds.isEmpty then none else some (ds, l.drop ds.length)

/-- `\S+` (greedy). -/
def eatNonWs1 (l : List Char) : Option (List Char) :=
  match l with
  | c :: t => if isWsChar c then none else some (t.dropWhile (fun x => !isWsChar x))
  | [] => none

/-- Optional `(?:\.\.\.)?` after an address when the next pattern element is
`\s+`: the greedy group keeps the dots exactly when whitespace follows them. -/
def eatOptTruncWs (base l : List Char) : List Char × List Char :=
  if startsWithL ['.', '.', '.'] l then
    match l.drop 3 with
    | c :: _ => if isWsChar c then (base ++ ['.', '.', '.'], l.drop 3) else (base, l)
    | [] => (base, l)
  else (base, l)

/-- Optional `(?:\.\.\.)?` after an address when the next pattern element is
`\b.*$`: the group keeps the dots when a word character follows them; without
dots the boundary demands a non-word (or no) next character. -/
def eatOptTruncWordB (base l : List Char) : Option (List Char × List Char) :=
  if startsWithL ['.', '.', '.'] l then
    match l.drop 3 with
    | c :: _ => if isWordChar c then some (base ++ ['.', '.', '.'], l.drop 3) else some (base, l)
    | [] => some (base, l)
  else
    match l with
    | [] => some (base, l)
    | c :: _ => if isWordChar c then none else some (base, l)

/-- A parsed Authorised/Dropped event (`{"ts","wallet","worker"}`). -/
structure AuthEvent where
  ts : Int
  wallet : String
  worker : String
deriving DecidableEq

/-- Shared head `KEYWORD\s+client\s+\d+\s+\S+\s+` of the four
authorised/dropped patterns (case insensitive). -/
def eatEventHead (kw l : List Char) : Option (List Char) :=
  (eatLitCI kw l).bind fun l =>
  (eatWs1 l).bind fun l =>
  (eatLitCI "client".data l).bind fun l =>
  (eatWs1 l).bind fun l =>
  (eatDigits1 l).bind fun p =>
  (eatWs1 p.2).bind fun l =>
  (eatNonWs1 l).bind fun l =>
  eatWs1 l

/-- Shared tail `\s+as\s+user\s+ADDR\b.*$` of the two authorised patterns. -/
def eatAsUserTail (l : List Char) : Option Unit :=
  (eatWs1 l).bind fun l =>
  (eatLitCI "as".data l).bind fun l =>
  (eatWs1 l).bind fun l =>
  (eatLitCI "user".data l).bind fun l =>
  (eatWs1 l).bind fun l =>
  (parseAddrBase l).bind fun p =>
  (eatOptTruncWordB p.1 p.2).map fun _ => ()

/-- The `(?P<wallet>ADDR)\.(?P<worker>WORKER)` core: the wallet group keeps a
`...` suffix exactly when four or more dots separate it from the worker run
(greedy optional group plus the mandatory dot); the worker group is the
greedy run of its class, 1-64 characters.  Returns (wallet, worker run,
rest). -/
def parseWalletDotWorker (l : List Char) : Option (List Char × List Char × List Char) :=
  (parseAddrBase l).bind fun p =>
  let wl : List Char × List Char :=
    if startsWithL ['.', '.', '.', '.'] p.2 then (p.1 ++ ['.', '.', '.'], p.2.drop 3)
    else (p.1, p.2)
  (match wl.2 with | '.' :: t => some t | _ => none).bind fun l2 =>
  let w := l2.takeWhile workerNameChar
  if w.isEmpty ∨ 64 < w.length then none
  else some (wl.1, w, l2.drop w.length)

/-- `AUTH_RE`: `Authorised client \d+ \S+ worker WALLET.WORKER as user ADDR\b.*`
(case insensitive), deterministic rendering of the greedy match. -/
def parseAuthStrict (now : Int) (l : List Char) : Option AuthEvent :=
  let p := splitTsPrefix l
  (eatEventHead "authorised".data p.2).bind fun l =>
  (eatLitCI "worker".data l).bind fun l =>
  (eatWs1 l).bind fun l =>
  (parseWalletDotWorker l).bind fun t =>
  (eatAsUserTail t.2.2).bind fun _ =>
  some ⟨parse_bracket_ts p.1 now, ⟨t.1⟩, ⟨t.2.1⟩⟩

/-- `_AUTH_NO_WORKER_RE`: wallet-only fallback (worker becomes `"X"` at the
call site); the wallet keeps a `...` suffix when whitespace follows it. -/
def parseAuthFallback (now : Int) (l : List Char) : Option (Int × String) :=
  let p := splitTsPrefix l
  (eatEventHead "authorised".data p.2).bind fun l =>
  (eatLitCI "worker".data l).bind fun l =>
  (eatWs1 l).bind fun l =>
  (parseAddrBase l).bind fun pa =>
  let wl := eatOptTruncWs pa.1 pa.2
  (eatAsUserTail wl.2).bind fun _ =>
  some (parse_bracket_ts p.1 now, (⟨wl.1⟩ : String))

/-- `parse_authorised_line`: strict `wallet.worker` first (with the
truncation-marker override and `_clean_worker`), then the wallet-only
fallback with worker `"X"`. -/
def parse_authorised_line (now : Int) (line : String) : Option AuthEvent :=
  let sl := pyStripList isWsChar line.data
  match parseAuthStrict now sl with
  | some ev =>
    if _contains_truncator (some ev.wallet) || _contains_truncator (some ev.worker) then
      some ⟨ev.ts, ev.wallet, "X"⟩
    else some ⟨ev.ts, ev.wallet, _clean_worker (some ev.worker) ev.wallet⟩
  | none =>
    match parseAuthFallback now sl with
    | some (ts, wallet) => some ⟨ts, wallet, "X"⟩
    | none => none

/-- `DROP_RE`: `Dropped client \d+ \S+ user ADDR worker WALLET.WORKER\b.*`.
The trailing word boundary backtracks the greedy worker run past any trailing
`.`/`-` characters (the non-word members of the worker class). -/
def parseDropStrict (now : Int) (l : List Char) : Option AuthEvent :=
  let p := splitTsPrefix l
  (eatEventHead "dropped".data p.2).bind fun l =>
  (eatLitCI "user".data l).bind fun l =>
  (eatWs1 l).bind fun l =>
  (parseAddrBase l).bind fun ua =>
  let ul := eatOptTruncWs ua.1 ua.2
  (eatWs1 ul.2).bind fun l =>
  (eatLitCI "worker".data l).bind fun l =>
  (eatWs1 l).bind fun l =>
  (parseWalletDotWorker l).bind fun t =>
  let w2 := (t.2.1.reverse.dropWhile (fun c => c = '.' || c = '-')).reverse
  if w2.isEmpty then none
  else some ⟨parse_bracket_ts p.1 now, ⟨t.1⟩, ⟨w2⟩⟩

/-- `_DROP_NO_WORKER_RE`: wallet-only fallback. -/
def parseDropFallback (now : Int) (l : List Char) : Option (Int × String) :=
  let p := splitTsPrefix l
  (eatEventHead "dropped".data p.2).bind fun l =>
  (eatLitCI "user".data l).bind fun l =>
  (eatWs1 l).bind fun l =>
  (parseAddrBase l).bind fun ua =>
  let ul := eatOptTruncWs ua.1 ua.2
  (eatWs1 ul.2).bind fun l =>
  (eatLitCI "worker".data l).bind fun l =>
  (eatWs1 l).bind fun l =>
  (parseAddrBase l).bind fun wa =>
  (eatOptTruncWordB wa.1 wa.2).bind fun wb =>
  some (parse_bracket_ts p.1 now, (⟨wb.1⟩ : String))

/-- `parse_dropped_line`. -/
def parse_dropped_line (now : Int) (line : String) : Option AuthEvent :=
  let sl := pyStripList isWsChar line.data
  match parseDropStrict now sl with
  | some ev =>
    if _contains_truncator (some ev.wallet) || _contains_truncator (some ev.worker) then
      some ⟨ev.ts, ev.wallet, "X"⟩
    else some ⟨ev.ts, ev.wallet, _clean_worker (some ev.worker) ev.wallet⟩
  | none =>
    match parseDropFallback now sl with
    | some (ts, wallet) => some ⟨ts, wallet, "X"⟩
    | none => none

/-- Extract the greedy `(\{.*\})\s*$` payload group: from the `{` at the
current position to the last `}`, with only whitespace after it. -/
def extractBracePayload (l : List Char) : Option (List Char) :=
  let core := (l.reverse.dropWhile isWsChar).reverse
  match core with
  | '{' :: _ => if core.getLast? = some '}' then some core else none
  | _ => none

/-- A parsed `User` snapshot line (`{"ts","address","data"}`). -/
structure UserEvent where
  ts : Int
  address : String
  data : J

/-- `parse_user_line` / `USER_RE`:
`User\s+ADDR\s*:?\s*(\{.*\})\s*$` (case insensitive); an unparseable JSON
payload makes the whole line unrecognised. -/
def parse_user_line (now : Int) (line : String) : Option UserEvent :=
  let sl := pyStripList isWsChar line.data
  let p := splitTsPrefix sl
  (eatLitCI "user".data p.2).bind fun l =>
  (eatWs1 l).bind fun l =>
  (parseAddrBase l).bind fun pa =>
  let al : List Char × List Char :=
    if startsWithL ['.', '.', '.'] pa.2 then (pa.1 ++ ['.', '.', '.'], pa.2.drop 3)
    else (pa.1, pa.2)
  let l := al.2.dropWhile isWsChar
  let l := match l with | ':' :: t => t.dropWhile isWsChar | t => t
  (extractBracePayload l).bind fun payload =>
  (jsonLoads payload).bind fun data =>
  some ⟨parse_bracket_ts p.1 now, ⟨al.1⟩, data⟩

/-- Source keys of the `pool_metrics` record fields (`Users`, `Workers`,
`Idle`, `Disconnected`, `SPS1m`, `SPS5m` are lowercased on extraction). -/
def pmSrcKey : PMField → String
  | PMField.hashrate1m => "hashrate1m"
  | PMField.hashrate5m => "hashrate5m"
  | PMField.hashrate15m => "hashrate15m"
  | PMField.hashrate1hr => "hashrate1hr"
  | PMField.hashrate6hr => "hashrate6hr"
  | PMField.hashrate1d => "hashrate1d"
  | PMField.hashrate7d => "hashrate7d"
  | PMField.runtime => "runtime"
  | PMField.lastupdate => "lastupdate"
  | PMField.users => "Users"
  | PMField.workers => "Workers"
  | PMField.idle => "Idle"
  | PMField.disconnected => "Disconnected"
  | PMField.accepted => "accepted"
  | PMField.rejected => "rejected"
  | PMField.bestshare => "bestshare"
  | PMField.sps1m => "SPS1m"
  | PMField.sps5m => "SPS5m"
  | PMField.diff => "diff"

/-- All 19 metric fields. -/
def pmFields : List PMField :=
  [PMField.hashrate1m, PMField.hashrate5m, PMField.hashrate15m, PMField.hashrate1hr,
   PMField.hashrate6hr, PMField.hashrate1d, PMField.hashrate7d, PMField.runtime,
   PMField.lastupdate, PMField.users, PMField.workers, PMField.idle, PMField.disconnected,
   PMField.accepted, PMField.rejected, PMField.bestshare, PMField.sps1m, PMField.sps5m,
   PMField.diff]

/-- The record built by `parse_pool_json_line`: timestamp plus the JSON value
of each present key (`none` = key absent). -/
structure PoolRec where
  ts : Int
  vals : PMField → Option J

/-- `parse_pool_json_line` / `POOL_JSON_RE`:
`Pool:\s*(\{.*\})\s*$` (case sensitive) with optional bracketed timestamp. -/
def parse_pool_json_line (now : Int) (line : String) : Option PoolRec :=
  let sl := pyStripList isWsChar line.data
  let p := splitTsPrefix sl
  (if startsWithL "Pool:".data p.2 then some (p.2.drop 5) else none).bind fun l =>
  (extractBracePayload (l.dropWhile isWsChar)).bind fun payload =>
  (jsonLoads payload).bind fun data =>
  some ⟨parse_bracket_ts p.1 now, fun f => jGet data (pmSrcKey f)⟩

/-- Bind a parsed pool record into SQLite parameters; a container value makes
the whole `execute` raise (the ingest loop catches it and skips the row). -/
def bindPoolRec (r : PoolRec) : Option PRow :=
  if pmFields.all (fun f => match r.vals f with
      | some v => (jToSV v).isSome
      | none => true) then
    some ⟨r.ts, fun f => match r.vals f with
      | some v => (jToSV v).getD none
      | none => none⟩
  else none

/-- `_split_addr_worker`: split at the first dot. -/
def _split_addr_worker (s : String) : String × Option String :=
  match splitFirstDot s.data with
  | (a, none) => (⟨a⟩, none)
  | (a, some w) => (⟨a⟩, some ⟨w⟩)

/-- Split at the first `/`. -/
def splitFirstSlash : List Char → List Char × Option (List Char)
  | [] => ([], none)
  | c :: t =>
    if c = '/' then ([], some t)
    else
      let (a, b) := splitFirstSlash t
      (c :: a, b)

/-- `_scale_diff`: `a/b` as a real quotient (zero denominator raises inside
the source's try block, yielding `None`), else `float(raw)`. -/
def _scale_diff (raw : String) : Option ℚ :=
  match splitFirstSlash raw.data with
  | (a, some b) =>
    match pyFloatQ a, pyFloatQ b with
    | some qa, some qb => if qb = 0 then none else some (qa / qb)
    | _, _ => none
  | (a, none) => pyFloatQ a

/-- Validity of the worker-class run following the address inside the share
`<id>` group: it must decompose as `(\.\.\.)?(\.frag{1,64})?` (runs longer
than 65 characters are treated as no-match). -/
def shareIdTailOk (tail : List Char) : Bool :=
  tail.isEmpty || tail = ['.', '.', '.']
    || (tail.headD ' ' = '.' && 2 ≤ tail.length && tail.length ≤ 65)

/-- `(?P<id>ADDR(?:\.[A-Za-z0-9_\-\.]{1,64})?)`: combined id and rest. -/
def parseShareId (l : List Char) : Option (List Char × List Char) :=
  (parseAddrBase l).bind fun p =>
  let tail := p.2.takeWhile workerNameChar
  if shareIdTailOk tail then some (p.1 ++ tail, p.2.drop tail.length) else none

/-- `\s+(?:at\s+)?diff\s+(?P<rawdiff>\d+(?:/\d+)?).*$`. -/
def parseShareDiffPart (l : List Char) : Option (List Char) :=
  (eatWs1 l).bind fun l =>
  let l2 := match eatLitCI "at".data l with
    | some r => (match eatWs1 r with | some r2 => r2 | none => l)
    | none => l
  (eatLitCI "diff".data l2).bind fun l =>
  (eatWs1 l).bind fun l =>
  (eatDigits1 l).bind fun p =>
  (match p.2 with
   | '/' :: t =>
     let d2 := t.takeWhile Char.isDigit
     if d2.isEmpty then some p.1 else some (p.1 ++ '/' :: d2)
   | _ => some p.1)

/-- `accepted|rejected` (case insensitive, alternation order). -/
def matchStatusWord (l : List Char) : Option (List Char) :=
  match eatLitCI "accepted".data l with
  | some r => some r
  | none => eatLitCI "rejected".data l

/-- First share dialect: `Share <status> from <id> [at] diff <n>...`. -/
def parseShareDialect1 (now : Int) (l : List Char) : Option (Int × List Char × List Char) :=
  let p := splitTsPrefix l
  (eatLitCI "share".data p.2).bind fun l =>
  (eatWs1 l).bind fun l =>
  (matchStatusWord l).bind fun l =>
  (eatWs1 l).bind fun l =>
  (eatLitCI "from".data l).bind fun l =>
  (eatWs1 l).bind fun l =>
  (parseShareId l).bind fun pid =>
  (parseShareDiffPart pid.2).bind fun raw =>
  some (parse_bracket_ts p.1 now, pid.1, raw)

/-- Second share dialect: `<Status> share from <id> [at] diff <n>...`. -/
def parseShareDialect2 (now : Int) (l : List Char) : Option (Int × List Char × List Char) :=
  let p := splitTsPrefix l
  (matchStatusWord p.2).bind fun l =>
  (eatWs1 l).bind fun l =>
  (eatLitCI "share".data l).bind fun l =>
  (eatWs1 l).bind fun l =>
  (eatLitCI "from".data l).bind fun l =>
  (eatWs1 l).bind fun l =>
  (parseShareId l).bind fun pid =>
  (parseShareDiffPart pid.2).bind fun raw =>
  some (parse_bracket_ts p.1 now, pid.1, raw)

/-- A parsed share event, mirroring the dict built by `parse_share_line`. -/
structure ShareEvent where
  ts : Int
  status : String
  address : String
  worker : Option String
  rawdiff : String
  scaled : Option ℚ
  ip : Option String
deriving DecidableEq

/-- `parse_share_line`: the dialects are tried in order on the stripped line;
the status is recomputed from a substring test on the whole stripped line,
not from the captured status token. -/
def parse_share_line (now : Int) (line : String) : Option ShareEvent :=
  let s := pyStripList isWsChar line.data
  let core :=
    match parseShareDialect1 now s with
    | some r => some r
    | none => parseShareDialect2 now s
  match core with
  | none => none
  | some r =>
    let aw := _split_addr_worker ⟨r.2.1⟩
    let status :=
      if hasSub "Accepted".data s || hasSub "accepted".data s then "accepted" else "rejected"
    some ⟨r.1, status, aw.1, aw.2, ⟨r.2.2⟩, _scale_diff ⟨r.2.2⟩, none⟩

/-- Python truthiness of an SQLite value. -/
def svTruthy : SV → Bool
  | SV.num q => q ≠ 0
  | SV.text s => s ≠ ""

/-- `v or d` for an optional stored value. -/
def svOr (v : Option SV) (d : SV) : SV :=
  match v with
  | some s => if svTruthy s then s else d
  | none => d

/-- Python `int(s)` on a string: optional surrounding whitespace, optional
sign, decimal digits (underscore separators not modelled); anything else
raises (`none`). -/
def pyIntOfText (s : String) : Option Int :=
  let l := pyStripList isWsChar s.data
  let sg : Int × List Char :=
    match l with
    | '+' :: t => (1, t)
    | '-' :: t => (-1, t)
    | t => (1, t)
  if sg.2.isEmpty || !(sg.2.all Char.isDigit) then none
  else some (sg.1 * (digitsToNat sg.2 : Int))

/-- Python `int(v)` on a stored value (float truncation toward zero; a
non-numeric string raises). -/
def pyIntSV : SV → Option Int
  | SV.num q => some (ratTrunc q)
  | SV.text s => pyIntOfText s

/-- `_to_int_safe`: `int(v)`, falling back to `int(float(str(v)))`. -/
def _to_int_safe (v : Option J) : Option Int :=
  match v with
  | some (J.jnum q) => some (ratTrunc q)
  | some (J.jbool b) => some (if b then 1 else 0)
  | some (J.jstr s) =>
    match pyIntOfText s with
    | some n => some n
    | none => (pyFloatQ (pyStripList isWsChar s.data)).map ratTrunc
  | _ => none

/-- The `key_addr` loop of `upsert_user_stats`: the first of `d["user"]`,
`d["address"]` that is a string extending `wallet + "."`, else the wallet. -/
def userKeyAddr (wallet : String) (d : J) : String :=
  let tryK : String → Option String := fun k =>
    match jGet d k with
    | some (J.jstr v) =>
      if startsWithL (wallet.data ++ ['.']) v.data then some v else none
    | _ => none
  match tryK "user" with
  | some v => v
  | none =>
    match tryK "address" with
    | some v => v
    | none => wallet

/-- Bind one JSON field of the user payload (`none` result = the `execute`
raised on a container value). -/
def jFieldSV (d : J) (k : String) : Option (Option SV) :=
  match jGet d k with
  | some v => jToSV v
  | none => some none

/-- `d.get("bestshare") or d.get("bestever")`, then bound. -/
def bestFieldSV (d : J) : Option (Option SV) :=
  let v :=
    match jGet d "bestshare" with
    | some x => if jTruthy x then some x else jGet d "bestever"
    | none => jGet d "bestever"
  match v with
  | some x => jToSV x
  | none => some none

/-- The `user_stats` row written by `upsert_user_stats` (`none` = the write
raised and the ingest loop skipped it). -/
def uRowOfUser (ev : UserEvent) : Option URow :=
  (jFieldSV ev.data "hashrate1m").bind fun h1 =>
  (jFieldSV ev.data "hashrate5m").bind fun h5 =>
  (jFieldSV ev.data "hashrate1hr").bind fun h1h =>
  (jFieldSV ev.data "hashrate1d").bind fun h1d =>
  (jFieldSV ev.data "hashrate7d").bind fun h7d =>
  (jFieldSV ev.data "lastshare").bind fun last =>
  (jFieldSV ev.data "workers").bind fun wk =>
  (jFieldSV ev.data "shares").bind fun sh =>
  (bestFieldSV ev.data).bind fun best =>
  (jFieldSV ev.data "bestever").bind fun be =>
  (jFieldSV ev.data "authorised").bind fun au =>
  some ⟨userKeyAddr ev.address ev.data, ev.ts, h1, h5, h1h, h1d, h7d, last, wk, sh, best, be, au⟩

/-- `SELECT worker FROM workers_seen WHERE wallet=? ORDER BY last_seen DESC
LIMIT 1` — the first table row attaining the maximal `last_seen` (SQLite
leaves the tie order unspecified; fixed here to table order). -/
def mostRecentWorker (t : List WRow) (wallet : String) : Option String :=
  match t.filter (fun r => r.wallet = wallet) with
  | [] => none
  | r0 :: rest =>
    some ((rest.foldl (fun best r => if r.last_seen > best.last_seen then r else best) r0).worker)

/-- Stable insertion of `x` before the first element it is strictly below. -/
def insertSorted (lt : α → α → Bool) (x : α) : List α → List α
  | [] => [x]
  | y :: ys => if lt x y then x :: y :: ys else y :: insertSorted lt x ys

/-- Stable sort (Python `sorted` / SQL ORDER BY as used here). -/
def sortStable (lt : α → α → Bool) (l : List α) : List α :=
  l.foldl (fun acc x => insertSorted lt x acc) []

/-- `_active_workers_for_wallet`: active rows within the window, most recent
first. -/
def _active_workers_for_wallet (t : List WRow) (wallet : String) (now_ts timeout_s : Int) : List String :=
  let rows := t.filter (fun r => r.wallet = wallet && r.active && now_ts - timeout_s ≤ r.last_seen)
  (sortStable (fun a b => a.last_seen > b.last_seen) rows).map (fun r => r.worker)

/-- `_refresh_single_worker_if_safe`. -/
def _refresh_single_worker_if_safe (db : DB) (wallet : String)
    (workers_count : Option Int) (now_ts timeout_s : Int) : DB :=
  if workers_count ≠ some 1 then db
  else
    match _active_workers_for_wallet db.workers_seen wallet now_ts timeout_s with
    | [w] =>
      { db with workers_seen := db.workers_seen.map (fun r =>
          if r.wallet = wallet ∧ r.worker = w then { r with last_seen := now_ts, active := true }
          else r) }
    | _ => db

/-- One iteration of the `ingest_log` line loop: dialects tried in the
source's order, each write wrapped in the source's catch-and-skip. -/
def ingestLine (timeout now : Int) (db : DB) (line : String) : DB :=
  match parse_pool_json_line now line with
  | some pj =>
    (match bindPoolRec pj with
     | some row => upsert_pool_metrics db row
     | none => db)
  | none =>
  match parse_user_line now line with
  | some usr =>
    let db1 :=
      match uRowOfUser usr with
      | some r => { db with user_stats := upsertURow db.user_stats r }
      | none => db
    let wc := _to_int_safe (jGet usr.data "workers")
    let db2 :=
      match wc with
      | some n =>
        if n > 0 then
          match mostRecentWorker db1.workers_seen usr.address with
          | some w => if w ≠ "" then upsert_worker_seen db1 usr.address w usr.ts true else db1
          | none => db1
        else db1
      | none => db1
    _refresh_single_worker_if_safe db2 usr.address wc usr.ts timeout
  | none =>
  match parse_authorised_line now line with
  | some a => upsert_worker_seen db a.wallet a.worker a.ts true
  | none =>
  match parse_dropped_line now line with
  | some d => upsert_worker_seen db d.wallet d.worker d.ts false
  | none =>
  match parse_share_line now line with
  | some sh =>
    let db1 := insertShare db ⟨sh.ts, sh.status, sh.address, sh.worker, sh.rawdiff, sh.scaled, sh.ip⟩
    (match sh.worker with
     | some w => if w ≠ "" then upsert_worker_seen db1 sh.address w sh.ts true else db1
     | none => db1)
  | none => db

/-- Default of the `WORKER_TIMEOUT` environment knob (seconds). -/
def WORKER_TIMEOUT : Int := 300

/-- `ingest_log`: resolve the starting offset (an explicit 0 means "use the
persisted cursor, or the start of the file"), apply every remaining line,
persist the end-of-file position (`f.tell()` is the file length, or the
starting offset when it lay beyond the end). -/
def ingest_log (db : DB) (path : String) (lines : List String) (from_bytes : Nat)
    (timeout now : Int) : DB :=
  let key := "log_ingest_cursor:" ++ path
  let start := if from_bytes = 0 then (get_meta db key).getD 0 else from_bytes
  let db2 := (lines.drop start).foldl (ingestLine timeout now) db
  set_meta db2 key (max start lines.length)

/-- `v or d` on a stored (non-optional) value. -/
def svOrD (s d : SV) : SV := if svTruthy s then s else d

/-- Python `max` on two stored values: numbers compare numerically, strings
lexicographically, mixed types raise (`none`); `max(a, b)` keeps `a` on
ties. -/
def svMaxPy : SV → SV → Option SV
  | SV.num a, SV.num b => some (SV.num (max a b))
  | SV.text a, SV.text b => some (SV.text (if a < b then b else a))
  | _, _ => none

/-- The running per-wallet aggregate of `_build_from_log`. -/
structure Agg where
  ts : Int
  h1 : ℚ
  h5 : ℚ
  h1h : ℚ
  lastshare : SV
  workers_reported : Int
  shares : Int
  bestshare : SV
deriving DecidableEq

/-- Seeding of the aggregate from the first record of a wallet (the `int()`
conversions here are not wrapped in try/except: a failure aborts the whole
snapshot build). -/
def aggSeed (r : URow) : Option Agg :=
  (pyIntSV (svOr r.workers (SV.num 0))).bind fun wk =>
  (pyIntSV (svOr r.shares (SV.num 0))).bind fun sh =>
  some ⟨r.ts,
        _parse_hashrate_to_hs (some (svOr r.hashrate1m (SV.num 0))),
        _parse_hashrate_to_hs (some (svOr r.hashrate5m (SV.num 0))),
        _parse_hashrate_to_hs (some (svOr r.hashrate1hr (SV.num 0))),
        svOr r.lastshare (SV.num r.ts), wk, sh, svOr r.bestshare (SV.num 0)⟩

/-- Merging a further record of the same wallet: hashrates add, the last-share
update and the share-count addition are individually try-guarded, the
worker-count max and best-share max are not. -/
def aggMerge (cur : Agg) (r : URow) : Option Agg :=
  let ts2 := if r.ts ≠ 0 ∧ r.ts > cur.ts then r.ts else cur.ts
  let h1 := cur.h1 + _parse_hashrate_to_hs (some (svOr r.hashrate1m (SV.num 0)))
  let h5 := cur.h5 + _parse_hashrate_to_hs (some (svOr r.hashrate5m (SV.num 0)))
  let h1h := cur.h1h + _parse_hashrate_to_hs (some (svOr r.hashrate1hr (SV.num 0)))
  let ls :=
    match r.lastshare with
    | some v =>
      if svTruthy v then
        (match pyIntSV v, pyIntSV (svOrD cur.lastshare (SV.num 0)) with
         | some a, some b => if a > b then v else cur.lastshare
         | _, _ => cur.lastshare)
      else cur.lastshare
    | none => cur.lastshare
  (pyIntSV (svOr r.workers (SV.num 0))).bind fun wk =>
  let shares2 :=
    match pyIntSV (svOr r.shares (SV.num 0)) with
    | some k => cur.shares + k
    | none => cur.shares
  (svMaxPy (svOrD cur.bestshare (SV.num 0)) (svOr r.bestshare (SV.num 0))).bind fun bs =>
  some ⟨ts2, h1, h5, h1h, ls, max cur.workers_reported wk, shares2, bs⟩

/-- First value of an association list (insertion order preserved). -/
def assocFind : List (String × α) → String → Option α
  | [], _ => none
  | (k, v) :: t, key => if k = key then some v else assocFind t key

/-- Replace the value of an existing key in place. -/
def assocReplace : List (String × α) → String → α → List (String × α)
  | [], _, _ => []
  | (k, v) :: t, key, x => if k = key then (key, x) :: t else (k, v) :: assocReplace t key x

/-- One step of the consolidation loop (Python dict keyed by wallet,
insertion-ordered). -/
def aggStep (acc : List (String × Agg)) (r : URow) : Option (List (String × Agg)) :=
  let wallet := (_split_addr_worker r.address).1
  match assocFind acc wallet with
  | none => (aggSeed r).map (fun a => acc ++ [(wallet, a)])
  | some cur => (aggMerge cur r).map (fun a => assocReplace acc wallet a)

/-- `per_wallet` after the whole consolidation loop (the `user_stats` table is
keyed by address, so the latest-per-address join it runs on returns one row
per address, i.e. the table itself, in table order). -/
def perWallet (rows : List URow) : Option (List (String × Agg)) :=
  rows.foldl (fun acc r => acc.bind (fun a => aggStep a r)) (some [])

/-- Rendered per-wallet snapshot (after the rendering loop). -/
structure RSnap where
  ts : Int
  h1s : String
  h5s : String
  h1hs : String
  workers_cnt : Int
  shares : Int
  lastshare : SV
  bestshare : SV
deriving DecidableEq

/-- The rendering loop: positive sums render through `_human_hashrate`, zero
(or negative) sums render the placeholder. -/
def renderAgg (a : Agg) : RSnap :=
  ⟨a.ts,
   if a.h1 > 0 then _human_hashrate a.h1 else "—",
   if a.h5 > 0 then _human_hashrate a.h5 else "—",
   if a.h1h > 0 then _human_hashrate a.h1h else "—",
   a.workers_reported, a.shares, a.lastshare, a.bestshare⟩

/-- Order of the `workers_seen` query: wallet ascending, `last_seen`
descending (ties left in table order). -/
def abLt (a b : WRow) : Bool :=
  a.wallet < b.wallet || (a.wallet = b.wallet && a.last_seen > b.last_seen)

/-- `active_by_wallet`: group the recent rows by wallet via `setdefault`,
preserving query order. -/
def groupByWallet (rows : List WRow) : List (String × List String) :=
  rows.foldl (fun acc r =>
    match assocFind acc r.wallet with
    | some l => assocReplace acc r.wallet (l ++ [r.worker])
    | none => acc ++ [(r.wallet, [r.worker])]) []

/-- The dedup-preserving-order loop over seen names, skipping empty ones. -/
def dedupNames (l : List String) : List String :=
  l.foldl (fun acc n => if n = "" then acc else if acc.contains n then acc else acc ++ [n]) []

/-- One row of the snapshot's `users` list. -/
structure OutRow where
  wallet : String
  address : String
  user : String
  worker : String
  active_workers : List String
  shares : Int
  lastshare : Option SV
  hashrate1m : String
  hashrate5m : String
  hashrate1hr : String
  bestshare : Option SV
  workers : Int
deriving DecidableEq

/-- Emit one wallet row from the optional rendered snapshot and the recent
worker names. -/
def buildRow (wallet : String) (snap : Option RSnap) (names : List String) : OutRow :=
  let seen := dedupNames names
  let fallback : Int := match snap with | some s => s.workers_cnt | none => 0
  { wallet := wallet, address := wallet, user := wallet, worker := "",
    active_workers := seen,
    shares := (match snap with | some s => s.shares | none => 0),
    lastshare := (match snap with
      | some s => if svTruthy s.lastshare then some s.lastshare else some (SV.num s.ts)
      | none => none),
    hashrate1m := (match snap with | some s => s.h1s | none => "—"),
    hashrate5m := (match snap with | some s => s.h5s | none => "—"),
    hashrate1hr := (match snap with | some s => s.h1hs | none => "—"),
    bestshare := (match snap with | some s => some s.bestshare | none => none),
    workers := (if seen ≠ [] then (seen.length : Int)
      else if fallback ≠ 0 then fallback
      else if snap.isSome then 1 else 0) }

/-- Union of the wallets of both sources (Python iterates a hash set here; the
order is canonicalised by the final sort). -/
def buildUsersRows (pw : List (String × RSnap)) (ab : List (String × List String)) : List OutRow :=
  let keys := pw.map (fun p => p.1)
  let wallets := keys ++ (ab.map (fun p => p.1)).filter (fun w => !keys.contains w)
  wallets.map (fun w => buildRow w (assocFind pw w) ((assocFind ab w).getD []))

/-- Final sort key: 5-minute hashrate descending (reparsed from the rendered
string), wallet ascending. -/
def userSortKeyLt (a b : OutRow) : Bool :=
  let ha := _parse_hashrate_to_hs (some (svOrD (SV.text a.hashrate5m) (SV.num 0)))
  let hb := _parse_hashrate_to_hs (some (svOrD (SV.text b.hashrate5m) (SV.num 0)))
  ha > hb || (ha = hb && a.wallet < b.wallet)

/-- The `users` part of `CKPoolState._build_from_log`, given an
already-ingested store: run the expiry sweep, consolidate `user_stats` to one
aggregate per wallet, render, fetch the recent `workers_seen` rows (note:
filtered on `last_seen` recency only — the `active` flag is not consulted),
union the wallets, and sort.  `none` models the aggregation loop raising (the
caller then keeps its previous snapshot).  The pool-metrics passthrough and
the totals block of the source, which no claim references, are not modelled. -/
def _build_from_log_users (db : DB) (now timeout : Int) : Option (List OutRow) :=
  let db2 := expire_stale_workers db now timeout
  (perWallet db2.user_stats).map fun pwa =>
  let pw := pwa.map (fun p => (p.1, renderAgg p.2))
  let ab := groupByWallet
    (sortStable abLt (db2.workers_seen.filter (fun r => now - timeout ≤ r.last_seen)))
  sortStable userSortKeyLt (buildUsersRows pw ab)

/-- Outcome of `requests.get(self.status_url, timeout=3)`:
either the call raised (connection failure, timeout, redirect loop, ...) or a
response arrived with a status code and a JSON-decoded body (`none` = the
body was not valid JSON, so `r.json()` raised). -/
inductive HttpOutcome
  | exn
  | resp (status : Nat) (body : Option J)

/-- The snapshot dict returned by `_fetch_status_http` (`totals` is absent in
the non-dict early return). -/
structure StatusSnap where
  pool : J
  users : List J
  totals : Option J

/-- Python `str(v)` as far as this pipeline exercises it: strings render as
themselves; other scalars and containers are abstracted (they are only ever
prefix-compared against `wallet + "."`, which none of the placeholders can
match). -/
def pyStrJ : J → String
  | J.jstr s => s
  | J.jnull => "None"
  | J.jbool b => if b then "True" else "False"
  | J.jnum q => if q.den = 1 then toString q.num else "float"
  | J.jarr _ => "list"
  | J.jobj _ => "dict"

/-- Dict assignment `u[k] = x` (keys unique in a decoded JSON dict). -/
def jSet (v : J) (k : String) (x : J) : J :=
  match v with
  | J.jobj kvs => J.jobj (if (assocFind kvs k).isSome then assocReplace kvs k x else kvs ++ [(k, x)])
  | _ => v

/-- Set `wallet`/`address`/`worker` on the user dict, the worker derived from
the combined `user` identity. -/
def processUserWith (u : J) (wallet : String) : Except Unit J :=
  let user_s :=
    match jGet u "user" with
    | some x => if jTruthy x then pyStrJ x else ""
    | none => ""
  let wrk : String :=
    if startsWithL (wallet.data ++ ['.']) user_s.data then ⟨user_s.data.drop (wallet.length + 1)⟩
    else ""
  Except.ok (jSet (jSet (jSet u "wallet" (J.jstr wallet)) "address" (J.jstr wallet))
    "worker" (J.jstr wrk))

/-- The per-user munging of the success path; `Except.error` models any
exception inside the loop body (non-dict element, non-string truthy wallet,
non-string truthy user ahead of `split`). -/
def processUser (u : J) : Except Unit J :=
  match u with
  | J.jobj _ =>
    let wv :=
      match jGet u "wallet" with
      | some x => if jTruthy x then some x else none
      | none => none
    (match wv with
     | some (J.jstr w) => processUserWith u w
     | some _ => Except.error ()
     | none =>
       match jGet u "user" with
       | some x =>
         if jTruthy x then
           (match x with
            | J.jstr s => processUserWith u ⟨(splitFirstDot s.data).1⟩
            | _ => Except.error ())
         else processUserWith u ""
       | none => processUserWith u "")
  | _ => Except.error ()

/-- The try-block of `_fetch_status_http`: `raise_for_status` raises exactly
for statuses 400-599; the optional `status` envelope is unwrapped; a non-dict
body returns the bare empty snapshot; the users list is munged per entry. -/
def fetchInner (o : HttpOutcome) : Except Unit StatusSnap :=
  match o with
  | HttpOutcome.exn => Except.error ()
  | HttpOutcome.resp st body =>
    if 400 ≤ st ∧ st ≤ 599 then Except.error ()
    else
      match body with
      | none => Except.error ()
      | some data0 =>
        let data :=
          match jGet data0 "status" with
          | some inner => (match inner with | J.jobj _ => inner | _ => data0)
          | none => data0
        match data with
        | J.jobj _ =>
          let pool :=
            match jGet data "pool" with
            | some x => if jTruthy x then x else J.jobj []
            | none => J.jobj []
          let uv :=
            match jGet data "users" with
            | some x => if jTruthy x then x else J.jarr []
            | none => J.jarr []
          (match uv with
           | J.jarr l =>
             (match l.mapM processUser with
              | Except.ok users => Except.ok ⟨pool, users, some (J.jobj [])⟩
              | Except.error e => Except.error e)
           | _ => Except.error ())
        | _ => Except.ok ⟨J.jobj [], [], none⟩

/-- `_fetch_status_http`: every exception inside the try block degrades to the
empty snapshot; the function is total — it never propagates a failure. -/
def _fetch_status_http (o : HttpOutcome) : StatusSnap :=
  match fetchInner o with
  | Except.ok s => s
  | Except.error _ => ⟨J.jobj [], [], some (J.jobj [])⟩

/-! Concrete scenario fixtures. -/

/-- The three literal log lines of the end-to-end scenario. -/
def c1Lines : List String :=
  ["Authorised client 1 127.0.0.1 worker WALLET1.rig1 as user WALLET1",
   "Share accepted from WALLET1.rig1 at diff 1000",
   "Dropped client 1 127.0.0.1 user WALLET1 worker WALLET1.rig1"]

/-- The store after ingesting them into a fresh database (every event carries
no bracketed timestamp, so each gets the ingest-time clock, here 1000). -/
def c1DB : DB := ingest_log emptyDB "ckpool.log" c1Lines 0 WORKER_TIMEOUT 1000

/-- The same scenario with a wallet string that the address pattern accepts. -/
def c1LinesOk : List String :=
  ["Authorised client 1 127.0.0.1 worker 1abcdex.rig1 as user 1abcdex",
   "Share accepted from 1abcdex.rig1 at diff 1000",
   "Dropped client 1 127.0.0.1 user 1abcdex worker 1abcdex.rig1"]

/-- Store after ingesting the pattern-valid scenario. -/
def c1DBOk : DB := ingest_log emptyDB "ckpool.log" c1LinesOk 0 WORKER_TIMEOUT 1000

/-- A user-stats row carrying only an address, a timestamp and a 1-minute
hashrate. -/
def uRowH1 (addr : String) (ts : Int) (h1 : ℚ) : URow :=
  { address := addr, ts := ts, hashrate1m := some (SV.num h1),
    hashrate5m := none, hashrate1hr := none, hashrate1d := none, hashrate7d := none,
    lastshare := none, workers := none, shares := none, bestshare := none,
    bestever := none, authorised := none }

/-- Store holding two sub-account snapshots of the same wallet. -/
def c6DB : DB :=
  { emptyDB with user_stats :=
      [uRowH1 "1abcdex.a" 100 1000000000000, uRowH1 "1abcdex.b" 200 2000000000000] }

/-! Claim theorems. -/

/-- C1 (counterexample): ingesting the three literal scenario lines records
nothing at all — `WALLET1` does not match the address pattern, so no share row
is recorded (the claim asserts exactly one) and the snapshot contains no
wallet row whatsoever (the claim asserts a `WALLET1` row with empty
`active_workers`). -/
theorem c1_counterexample :
    c1DB.shares = [] ∧ c1DB.workers_seen = [] ∧
      _build_from_log_users c1DB 1000 WORKER_TIMEOUT = some [] := by
  decide

/-- C1 (amended): with a pattern-valid wallet (`1abcdex`) in place of
`WALLET1`, ingesting the authorised, accepted-share and dropped lines in
order records exactly one share row and leaves the worker row inactive with
`last_seen` at the drop time; the snapshot built at the drop time still shows
the wallet with `active_workers = ["rig1"]` — not `[]` — because the
builder's worker query filters on `last_seen` recency only and ignores the
`active` flag the drop cleared; only a snapshot built after `WORKER_TIMEOUT`
has elapsed drops the name, and then the wallet row disappears entirely (it
has no user-stats snapshot). -/
theorem c1_amended :
    c1DBOk.shares.length = 1 ∧
      c1DBOk.workers_seen = [⟨"1abcdex", "rig1", 1000, false⟩] ∧
      (_build_from_log_users c1DBOk 1000 WORKER_TIMEOUT).map
        (List.map (fun r => (r.wallet, r.active_workers))) = some [("1abcdex", ["rig1"])] ∧
      _build_from_log_users c1DBOk (1000 + WORKER_TIMEOUT + 1) WORKER_TIMEOUT = some [] := by
  decide

/-- C2: a `WorkerSeen` row that is active with `last_seen = T` is made
inactive by an expiry sweep at `T + W + 1` and left active by one at
`T + W - 1` (the sweep applies `expireWRow` to every table row). -/
theorem c2_liveness_expiry (r : WRow) (T W : Int)
    (ha : r.active = true) (hl : r.last_seen = T) :
    (expireWRow (T + W + 1) W r).active = false ∧
      (expireWRow (T + W - 1) W r).active = true := by
  constructor
  · unfold expireWRow
    rw [if_pos ⟨ha, by rw [hl]; omega⟩]
  · unfold expireWRow
    rw [if_neg]
    · exact ha
    · rintro ⟨-, h⟩
      rw [hl] at h
      omega

/-- C2 witness: a concrete active row with `last_seen = 100` and timeout 300
flips at time 401 and survives at time 399. -/
theorem c2_liveness_expiry_witness :
    (expireWRow 401 300 ⟨"1abcdex", "rig1", 100, true⟩).active = false ∧
      (expireWRow 399 300 ⟨"1abcdex", "rig1", 100, true⟩).active = true :=
  c2_liveness_expiry ⟨"1abcdex", "rig1", 100, true⟩ 100 300 rfl rfl

/-- C3 (counterexample): the candidate `"...rig1"` contains three consecutive
dots, yet sanitization returns `"rig1"`, not the sentinel — the edge dots are
stripped before any check runs. -/
theorem c3_counterexample :
    _clean_worker (some "...rig1") "1wallet" = "rig1" ∧ ("rig1" : String) ≠ "X" := by
  decide

/-- C3 (amended): the rejection checks run on the candidate after stripping
leading/trailing whitespace, dots and spaces: if that stripped form is empty,
equals the wallet, contains three consecutive dots, or exceeds 64 characters,
the sentinel `"X"` is returned; a candidate that the stripping leaves
unchanged, matches the worker-name class, differs from the wallet and has no
three consecutive dots passes through unchanged. -/
theorem c3_amended :
    (∀ w0 wallet : String,
      (stripPy w0 = "" ∨ stripPy w0 = wallet ∨ hasTripleDot (stripPy w0) = true ∨
        64 < (stripPy w0).length) →
      _clean_worker (some w0) wallet = "X") ∧
    (∀ w wallet : String, workerNameOk w = true → stripPy w = w → w ≠ wallet →
      hasTripleDot w = false → _clean_worker (some w) wallet = w) := by
  constructor
  · intro w0 wallet h
    simp only [_clean_worker]
    rw [if_pos h]
  · intro w wallet hok hs hw ht
    simp only [_clean_worker]
    rw [hs]
    have hlen : 1 ≤ w.length ∧ w.length ≤ 64 := by
      unfold workerNameOk at hok
      simp only [Bool.and_eq_true, decide_eq_true_eq] at hok
      exact ⟨hok.1.1, hok.1.2⟩
    rw [if_neg, if_pos hok]
    rintro (he | he | he | he)
    · subst he
      exact absurd hlen.1 (by decide)
    · exact hw he
    · rw [ht] at he
      simp at he
    · omega

/-- C3 amended witness: the class-valid candidate `"rig1"` passes through. -/
theorem c3_amended_witness : _clean_worker (some "rig1") "1wallet" = "rig1" :=
  c3_amended.2 "rig1" "1wallet" (by decide) (by decide) (by decide) (by decide)

/-- C5: for the representative values 0, 999, 1500, 1 200 000 and
3 300 000 000 000 the composition normalize∘format∘normalize reproduces the
value exactly (well within the two-decimal precision of the chosen unit), and
the formatter renders `"0"`, `"999"` (bare rounded integers below 1000),
`"1.50K"`, `"1.20M"` and `"3.30T"` (largest unit of which the value is at
least one, two decimals). -/
theorem c5_roundtrip :
    (_parse_hashrate_to_hs (some (SV.text (_human_hashrate
        (_parse_hashrate_to_hs (some (SV.num 0)))))) = 0 ∧
      _human_hashrate 0 = "0") ∧
    (_parse_hashrate_to_hs (some (SV.text (_human_hashrate
        (_parse_hashrate_to_hs (some (SV.num 999)))))) = 999 ∧
      _human_hashrate 999 = "999") ∧
    (_parse_hashrate_to_hs (some (SV.text (_human_hashrate
        (_parse_hashrate_to_hs (some (SV.num 1500)))))) = 1500 ∧
      _human_hashrate 1500 = "1.50K") ∧
    (_parse_hashrate_to_hs (some (SV.text (_human_hashrate
        (_parse_hashrate_to_hs (some (SV.num 1200000)))))) = 1200000 ∧
      _human_hashrate 1200000 = "1.20M") ∧
    (_parse_hashrate_to_hs (some (SV.text (_human_hashrate
        (_parse_hashrate_to_hs (some (SV.num 3300000000000)))))) = 3300000000000 ∧
      _human_hashrate 3300000000000 = "3.30T") := by
  decide

/-- Looking up the key just upserted into the metadata table finds the new
value. -/
theorem find_upsertMeta (m : List (String × Nat)) (k : String) (v : Nat) :
    (upsertMeta m k v).find? (fun p => p.1 = k) = some (k, v) := by
  induction m with
  | nil => simp [upsertMeta, List.find?]
  | cons x t ih =>
    obtain ⟨k0, v0⟩ := x
    by_cases hx : k0 = k
    · simp [upsertMeta, hx, List.find?]
    · simpa [upsertMeta, hx, List.find?] using ih

/-- Re-upserting the same key/value pair is a no-op. -/
theorem upsertMeta_idem (m : List (String × Nat)) (k : String) (v : Nat) :
    upsertMeta (upsertMeta m k v) k v = upsertMeta m k v := by
  induction m with
  | nil => simp [upsertMeta]
  | cons x t ih =>
    obtain ⟨k0, v0⟩ := x
    by_cases hx : k0 = k
    · simp [upsertMeta, hx]
    · simp [upsertMeta, hx, ih]

/-- `get_meta` after `set_meta` of the same key. -/
theorem get_meta_set_meta_same (db : DB) (k : String) (v : Nat) :
    get_meta (set_meta db k v) k = some v := by
  unfold get_meta set_meta
  simp [find_upsertMeta]

/-- `set_meta` of an identical key/value pair twice equals once. -/
theorem set_meta_set_meta (db : DB) (k : String) (v : Nat) :
    set_meta (set_meta db k v) k v = set_meta db k v := by
  unfold set_meta
  simp [upsertMeta_idem]

/-- C7: calling `ingest_log` on the same log file with `from_bytes = 0` a
second time leaves the entire store — in particular the `user_stats` and
`workers_seen` tables — exactly as the first call left it: the second call
resolves the persisted cursor, which sits at (or beyond) end of file, so it
re-processes nothing; the `shares` table also does not grow.  (The clock and
timeout of the second call are arbitrary.) -/
theorem c7_reingest_no_op (db : DB) (path : String) (lines : List String)
    (timeout now timeout2 now2 : Int) :
    ingest_log (ingest_log db path lines 0 timeout now) path lines 0 timeout2 now2 =
      ingest_log db path lines 0 timeout now := by
  simp only [ingest_log]
  norm_num
  rw [get_meta_set_meta_same, Option.getD_some,
    List.drop_eq_nil_of_le (Nat.le_max_right _ _), List.foldl_nil,
    Nat.max_eq_left (Nat.le_max_right _ _)]
  exact set_meta_set_meta _ _ _

/-- Merging a record into the table row sharing its timestamp updates that
row in place, COALESCE-ing each column. -/
theorem lookupPM_upsertPRow (t : List PRow) (rec old : PRow)
    (h : lookupPM t rec.ts = some old) :
    lookupPM (upsertPRow t rec) rec.ts =
      some ⟨old.ts, fun f => match rec.vals f with
        | some v => some v
        | none => old.vals f⟩ := by
  induction t with
  | nil => simp [lookupPM] at h
  | cons x xs ih =>
    by_cases hx : x.ts = rec.ts
    · have hfind : lookupPM (x :: xs) rec.ts = some x := by
        simp [lookupPM, List.find?_cons_of_pos, hx]
      rw [hfind] at h
      cases h
      unfold upsertPRow
      rw [if_pos hx]
      simp [lookupPM, List.find?_cons_of_pos, hx]
    · have hfind : lookupPM (x :: xs) rec.ts = lookupPM xs rec.ts := by
        simp [lookupPM, List.find?_cons_of_neg, hx]
      rw [hfind] at h
      unfold upsertPRow
      rw [if_neg hx]
      have : lookupPM (x :: upsertPRow xs rec) rec.ts = lookupPM (upsertPRow xs rec) rec.ts := by
        simp [lookupPM, List.find?_cons_of_neg, hx]
      rw [this]
      exact ih h

/-- C8: upserting a pool-metrics record at an already-present timestamp keeps
the stored value of every column whose incoming value is null and replaces
the stored value with every non-null incoming one. -/
theorem c8_pool_metrics_merge (db : DB) (rec old : PRow)
    (h : lookupPM db.pool_metrics rec.ts = some old) :
    ∃ m, lookupPM (upsert_pool_metrics db rec).pool_metrics rec.ts = some m ∧
      ∀ f : PMField, (rec.vals f = none → m.vals f = old.vals f) ∧
        ∀ v, rec.vals f = some v → m.vals f = some v := by
  refine ⟨_, lookupPM_upsertPRow db.pool_metrics rec old h, ?_⟩
  intro f
  constructor
  · intro hn
    simp [hn]
  · intro v hv
    simp [hv]

/-- Stored row for the C8 witness: `users = 3`, `accepted = 1`. -/
def c8Old : PRow :=
  ⟨5, fun f => match f with
    | PMField.users => some (SV.num 3)
    | PMField.accepted => some (SV.num 1)
    | _ => none⟩

/-- Incoming record for the C8 witness: null `users`, `accepted = 7`. -/
def c8Rec : PRow :=
  ⟨5, fun f => match f with
    | PMField.accepted => some (SV.num 7)
    | _ => none⟩

/-- Store holding the C8 witness row. -/
def c8DB : DB := { emptyDB with pool_metrics := [c8Old] }

/-- C8 witness: the merge law applied at the concrete store. -/
theorem c8_pool_metrics_merge_witness :
    ∃ m, lookupPM (upsert_pool_metrics c8DB c8Rec).pool_metrics c8Rec.ts = some m ∧
      ∀ f : PMField, (c8Rec.vals f = none → m.vals f = c8Old.vals f) ∧
        ∀ v, c8Rec.vals f = some v → m.vals f = some v :=
  c8_pool_metrics_merge c8DB c8Rec c8Old rfl

/-- The error outcomes of the remote status fetch as the code distinguishes
them: a raised request, a 4xx/5xx status, an unparseable body, or a parseable
non-dict body. -/
def statusFetchErr (o : HttpOutcome) : Bool :=
  match o with
  | HttpOutcome.exn => true
  | HttpOutcome.resp st body =>
    (400 ≤ st && st ≤ 599) ||
      (match body with
       | none => true
       | some (J.jobj _) => false
       | some _ => true)

/-- C9 (counterexample): a 303 response (non-2xx) whose body is a well-formed
dict is processed, not degraded — the returned pool metrics are the body's
non-empty pool object, refuting "for every non-2xx response the snapshot is
empty". -/
theorem c9_counterexample :
    (_fetch_status_http (HttpOutcome.resp 303
        (some (J.jobj [("pool", J.jobj [("hashrate1m", J.jstr "1T")]),
                       ("users", J.jarr [])])))).pool
      = J.jobj [("hashrate1m", J.jstr "1T")] ∧
    J.jobj [("hashrate1m", J.jstr "1T")] ≠ J.jobj [] := by
  constructor
  · rfl
  · intro h
    injection h with h2
    cases h2

/-- C9 (amended): for every connection error, every 4xx or 5xx response, every
response whose body fails to parse as JSON, and every parseable non-dict body,
the remote snapshot builder returns the empty well-formed snapshot (empty pool
metrics, empty user list); the function is total, so no exception propagates.
Informational (1xx) and redirect (3xx) statuses with well-formed dict bodies,
however, are processed like 2xx responses (`raise_for_status` raises only for
400-599). -/
theorem c9_fetch_error_empty (o : HttpOutcome) (h : statusFetchErr o = true) :
    (_fetch_status_http o).pool = J.jobj [] ∧ (_fetch_status_http o).users = [] := by
  match o with
  | HttpOutcome.exn => exact ⟨rfl, rfl⟩
  | HttpOutcome.resp st body =>
    simp only [statusFetchErr, Bool.or_eq_true, Bool.and_eq_true, decide_eq_true_eq] at h
    simp only [_fetch_status_http, fetchInner]
    rcases h with ⟨h4, h5⟩ | hb
    · rw [if_pos ⟨h4, h5⟩]
      exact ⟨rfl, rfl⟩
    · by_cases hst : 400 ≤ st ∧ st ≤ 599
      · rw [if_pos hst]
        exact ⟨rfl, rfl⟩
      · rw [if_neg hst]
        cases body with
        | none => exact ⟨rfl, rfl⟩
        | some b =>
          cases b with
          | jobj kvs => simp at hb
          | jnull => exact ⟨rfl, rfl⟩
          | jbool x => exact ⟨rfl, rfl⟩
          | jnum q => exact ⟨rfl, rfl⟩
          | jstr s => exact ⟨rfl, rfl⟩
          | jarr l => exact ⟨rfl, rfl⟩

/-- C9 witness: a raised request degrades to the empty snapshot. -/
theorem c9_fetch_error_empty_witness :
    (_fetch_status_http HttpOutcome.exn).pool = J.jobj [] ∧
      (_fetch_status_http HttpOutcome.exn).users = [] :=
  c9_fetch_error_empty HttpOutcome.exn rfl

/-- `takeWhile` walks through a fully-satisfying prefix. -/
theorem takeWhile_append_all {α} (p : α → Bool) (a b : List α) (ha : a.all p = true) :
    (a ++ b).takeWhile p = a ++ b.takeWhile p := by
  induction a with
  | nil => simp
  | cons x t ih =>
    simp only [List.all_cons, Bool.and_eq_true] at ha
    simp [List.takeWhile_cons, ha.1, ih ha.2]

/-- `dropWhile` discards a fully-satisfying prefix. -/
theorem dropWhile_append_all {α} (p : α → Bool) (a b : List α) (ha : a.all p = true) :
    (a ++ b).dropWhile p = b.dropWhile p := by
  induction a with
  | nil => simp
  | cons x t ih =>
    simp only [List.all_cons, Bool.and_eq_true] at ha
    simp [List.dropWhile_cons, ha.1, ih ha.2]

/-- `takeWhile` keeps a fully-satisfying list. -/
theorem takeWhile_all_eq {α} (p : α → Bool) (l : List α) (h : l.all p = true) :
    l.takeWhile p = l := by
  induction l with
  | nil => simp
  | cons x t ih =>
    simp only [List.all_cons, Bool.and_eq_true] at h
    simp [List.takeWhile_cons, h.1, ih h.2]

/-- `dropWhile` empties a fully-satisfying list. -/
theorem dropWhile_all_eq_nil {α} (p : α → Bool) (l : List α) (h : l.all p = true) :
    l.dropWhile p = [] := by
  induction l with
  | nil => simp
  | cons x t ih =>
    simp only [List.all_cons, Bool.and_eq_true] at h
    simp [List.dropWhile_cons, h.1, ih h.2]

/-- A list is its dot-free prefix plus, when a dot occurs, the dot and the
remainder. -/
theorem splitFirstDot_recon (l : List Char) :
    l = (splitFirstDot l).1 ++
      (match (splitFirstDot l).2 with | none => [] | some f => '.' :: f) := by
  induction l with
  | nil => rfl
  | cons c t ih =>
    by_cases hc : c = '.'
    · subst hc
      simp [splitFirstDot]
    · rcases hsp : splitFirstDot t with ⟨a, b⟩
      rw [hsp] at ih
      simp only [splitFirstDot, if_neg hc, hsp]
      rw [List.cons_append]
      exact congrArg (fun x => c :: x) ih

/-- An upper-case letter is not a digit. -/
theorem upper_not_digit (c : Char) (h : isUpperAZ c = true) : isDigitCh c = false := by
  simp only [isUpperAZ, Bool.and_eq_true, decide_eq_true_eq] at h
  rw [Bool.eq_false_iff]
  intro hd
  simp only [isDigitCh, Bool.and_eq_true, decide_eq_true_eq] at hd
  omega

/-- A digit is not an upper-case letter. -/
theorem digit_not_upper (c : Char) (h : isDigitCh c = true) : isUpperAZ c = false := by
  simp only [isDigitCh, Bool.and_eq_true, decide_eq_true_eq] at h
  rw [Bool.eq_false_iff]
  intro hd
  simp only [isUpperAZ, Bool.and_eq_true, decide_eq_true_eq] at hd
  omega

/-- A digit is none of the punctuation characters the float grammar
dispatches on. -/
theorem digit_ne_special (c : Char) (h : isDigitCh c = true) :
    c ≠ '+' ∧ c ≠ '-' ∧ c ≠ '.' ∧ c ≠ 'e' ∧ c ≠ 'E' := by
  refine ⟨?_, ?_, ?_, ?_, ?_⟩ <;> intro he <;> subst he <;> exact absurd h (by decide)

/-- An upper-case letter is neither a sign, a dot, nor a lowercase `e`. -/
theorem upper_ne_special (c : Char) (h : isUpperAZ c = true) :
    c ≠ '+' ∧ c ≠ '-' ∧ c ≠ '.' ∧ c ≠ 'e' := by
  refine ⟨?_, ?_, ?_, ?_⟩ <;> intro he <;> subst he <;> exact absurd h (by decide)

/-- The sign match of `pyFloatQ` falls through on any other head. -/
theorem pyFloatQ_eq_core (c : Char) (t : List Char) (h1 : c ≠ '+') (h2 : c ≠ '-') :
    pyFloatQ (c :: t) = pyFloatCore (c :: t) := by
  unfold pyFloatQ
  split
  · rename_i heq
    cases heq
    exact absurd rfl h1
  · rename_i heq
    cases heq
    exact absurd rfl h2
  · rfl

/-- First element of the reversal of a nonempty all-satisfying list. -/
theorem all_reverse_head (p : Char → Bool) (l : List Char) (hne : l ≠ [])
    (hall : l.all p = true) : ∃ d r, l.reverse = d :: r ∧ p d = true := by
  cases hr : l.reverse with
  | nil => exact absurd (by simpa using congrArg List.reverse hr) hne
  | cons d r =>
    refine ⟨d, r, rfl, ?_⟩
    have hdmem : d ∈ l := by
      rw [← List.mem_reverse, hr]
      exact List.mem_cons_self d r
    exact List.all_eq_true.mp hall d hdmem

/-- A regex-shaped numeral starts with a digit or a dot. -/
theorem numREOk_head (n : List Char) (hn : numREOk n = true) :
    ∃ c t, n = c :: t ∧ (isDigitCh c = true ∨ c = '.') := by
  have hrec := splitFirstDot_recon n
  unfold numREOk at hn
  rcases hsp : splitFirstDot n with ⟨a, b⟩
  rw [hsp] at hrec hn
  cases b with
  | none =>
    rw [Bool.and_eq_true, Bool.not_eq_true'] at hn
    cases a with
    | nil => simp at hn
    | cons c t =>
      refine ⟨c, t, by simpa using hrec, Or.inl ?_⟩
      have := hn.2
      rw [List.all_cons, Bool.and_eq_true] at this
      exact this.1
  | some f =>
    rw [Bool.and_eq_true, Bool.and_eq_true] at hn
    cases a with
    | nil => exact ⟨'.', f, by simpa using hrec, Or.inr rfl⟩
    | cons c t =>
      refine ⟨c, t ++ '.' :: f, by simpa using hrec, Or.inl ?_⟩
      have := hn.1.1
      rw [List.all_cons, Bool.and_eq_true] at this
      exact this.1

/-- A regex-shaped numeral ends with a digit. -/
theorem numREOk_last (n : List Char) (hn : numREOk n = true) :
    ∃ d r, n.reverse = d :: r ∧ isDigitCh d = true := by
  have hrec := splitFirstDot_recon n
  unfold numREOk at hn
  rcases hsp : splitFirstDot n with ⟨a, b⟩
  rw [hsp] at hrec hn
  cases b with
  | none =>
    rw [Bool.and_eq_true, Bool.not_eq_true'] at hn
    have hane : a ≠ [] := by
      intro h
      rw [h] at hn
      simp at hn
    obtain ⟨d, r, har, hd⟩ := all_reverse_head isDigitCh a hane hn.2
    refine ⟨d, r, ?_, hd⟩
    rw [show n = a by simpa using hrec, har]
  | some f =>
    rw [Bool.and_eq_true, Bool.and_eq_true, Bool.not_eq_true'] at hn
    have hfne : f ≠ [] := by
      intro h
      rw [h] at hn
      simp at hn
    obtain ⟨d, r, hfr, hd⟩ := all_reverse_head isDigitCh f hfne hn.2
    refine ⟨d, r ++ '.' :: a.reverse, ?_, hd⟩
    rw [hrec, List.reverse_append, List.reverse_cons, hfr]
    simp

/-- The exponent sign split falls through on any other head. -/
theorem expSign_other (c : Char) (t : List Char) (h1 : c ≠ '+') (h2 : c ≠ '-') :
    expSign (c :: t) = (1, c :: t) := by
  unfold expSign
  split
  · rename_i heq
    cases heq
    exact absurd rfl h1
  · rename_i heq
    cases heq
    exact absurd rfl h2
  · rfl

/-- An exponent marker followed by uppercase letters (or nothing) never
completes a float literal. -/
theorem pyFloatExp_upper_none (m : ℚ) (u : List Char)
    (hu : u.all isUpperAZ = true) (hne : u ≠ []) : pyFloatExp m u = none := by
  cases u with
  | nil => exact absurd rfl hne
  | cons c u2 =>
    simp only [List.all_cons, Bool.and_eq_true] at hu
    by_cases hE : c = 'E'
    · subst hE
      cases u2 with
      | nil => rfl
      | cons c2 t2 =>
        simp only [List.all_cons, Bool.and_eq_true] at hu
        have hc2 : isUpperAZ c2 = true := hu.2.1
        have hs2 := upper_ne_special c2 hc2
        simp only [pyFloatExp]
        rw [if_pos (by decide), expSign_other c2 t2 hs2.1 hs2.2.1]
        rw [List.takeWhile_cons_of_neg (by simp [upper_not_digit c2 hc2])]
        simp
    · have hce := (upper_ne_special c hu.1).2.2.2
      simp only [pyFloatExp]
      simp [hce, hE]

/-- `pyFloatQ` skips its sign match whenever the list is known to start with
a non-sign character. -/
theorem pyFloatQ_eq_core_of (l : List Char) (c : Char) (t : List Char)
    (hl : l = c :: t) (h1 : c ≠ '+') (h2 : c ≠ '-') : pyFloatQ l = pyFloatCore l := by
  subst hl
  exact pyFloatQ_eq_core c t h1 h2

/-- `numVal` on a dot-free split. -/
theorem numVal_none (n a : List Char) (hsp : splitFirstDot n = (a, none)) :
    numVal n = digitsToNat a := by
  unfold numVal
  rw [hsp]

/-- `numVal` on a split with a fractional part. -/
theorem numVal_some (n a f : List Char) (hsp : splitFirstDot n = (a, some f)) :
    numVal n = (digitsToNat a : ℚ) + (digitsToNat f : ℚ) / 10 ^ f.length := by
  unfold numVal
  rw [hsp]

/-- `pyFloatCore` when the digit run is followed by a dot. -/
theorem pyFloatCore_dot (l r2 : List Char) (h : l.dropWhile isDigitCh = '.' :: r2) :
    pyFloatCore l =
      (if ((l.takeWhile isDigitCh).isEmpty && (r2.takeWhile isDigitCh).isEmpty) = true then none
       else pyFloatExp ((digitsToNat (l.takeWhile isDigitCh) : ℚ)
         + (digitsToNat (r2.takeWhile isDigitCh) : ℚ) / 10 ^ (r2.takeWhile isDigitCh).length)
         (r2.dropWhile isDigitCh)) := by
  simp only [pyFloatCore, h]

/-- `pyFloatCore` when the whole input is digits. -/
theorem pyFloatCore_nil (l : List Char) (h : l.dropWhile isDigitCh = []) :
    pyFloatCore l =
      (if (l.takeWhile isDigitCh).isEmpty = true then none
       else pyFloatExp (digitsToNat (l.takeWhile isDigitCh)) []) := by
  simp only [pyFloatCore, h]

/-- `pyFloatCore` when the digit run is followed by a non-dot character. -/
theorem pyFloatCore_cons_nondot (l r : List Char) (c : Char)
    (h : l.dropWhile isDigitCh = c :: r) (hc : c ≠ '.') :
    pyFloatCore l =
      (if (l.takeWhile isDigitCh).isEmpty = true then none
       else pyFloatExp (digitsToNat (l.takeWhile isDigitCh)) (c :: r)) := by
  simp only [pyFloatCore, h]
  split
  · rename_i heq
    rw [List.cons.injEq] at heq
    exact absurd heq.1 hc
  · rfl

/-- A regex-shaped numeral is accepted by the Python float grammar with the
same value. -/
theorem pyFloatQ_numRE (n : List Char) (hn : numREOk n = true) :
    pyFloatQ n = some (numVal n) := by
  obtain ⟨c0, t0, hct, hcd⟩ := numREOk_head n hn
  have hsgn : c0 ≠ '+' ∧ c0 ≠ '-' := by
    rcases hcd with hd | hdot
    · exact ⟨(digit_ne_special c0 hd).1, (digit_ne_special c0 hd).2.1⟩
    · subst hdot
      exact ⟨by decide, by decide⟩
  rw [pyFloatQ_eq_core_of n c0 t0 hct hsgn.1 hsgn.2]
  have hrec := splitFirstDot_recon n
  unfold numREOk at hn
  rcases hsp : splitFirstDot n with ⟨a, b⟩
  rw [hsp] at hrec hn
  cases b with
  | none =>
    rw [Bool.and_eq_true, Bool.not_eq_true'] at hn
    have hna : n = a := by simpa using hrec
    have htk : n.takeWhile isDigitCh = a := by
      rw [hna]
      exact takeWhile_all_eq isDigitCh a hn.2
    have hdr : n.dropWhile isDigitCh = [] := by
      rw [hna]
      exact dropWhile_all_eq_nil isDigitCh a hn.2
    rw [pyFloatCore_nil n hdr, htk, numVal_none n a hsp, hn.1]
    simp [pyFloatExp]
  | some f =>
    rw [Bool.and_eq_true, Bool.and_eq_true, Bool.not_eq_true'] at hn
    obtain ⟨⟨ha, hf0⟩, hf⟩ := hn
    have hrec2 : n = a ++ '.' :: f := by simpa using hrec
    have htk : n.takeWhile isDigitCh = a := by
      rw [hrec2, takeWhile_append_all isDigitCh a ('.' :: f) ha,
        List.takeWhile_cons_of_neg (by decide), List.append_nil]
    have hdr : n.dropWhile isDigitCh = '.' :: f := by
      rw [hrec2, dropWhile_append_all isDigitCh a ('.' :: f) ha,
        List.dropWhile_cons_of_neg (by decide)]
    rw [pyFloatCore_dot n f hdr, htk, numVal_some n a f hsp,
      takeWhile_all_eq isDigitCh f hf, dropWhile_all_eq_nil isDigitCh f hf, hf0]
    simp [pyFloatExp]

/-- A regex-shaped numeral followed by a nonempty run of uppercase letters is
rejected by the Python float grammar. -/
theorem pyFloatQ_append_upper_none (n u : List Char) (hn : numREOk n = true)
    (hu : u.all isUpperAZ = true) (hune : u ≠ []) : pyFloatQ (n ++ u) = none := by
  obtain ⟨c0, t0, hct, hcd⟩ := numREOk_head n hn
  obtain ⟨c1, t1, hu1⟩ : ∃ c1 t1, u = c1 :: t1 := by
    cases u with
    | nil => exact absurd rfl hune
    | cons x xs => exact ⟨x, xs, rfl⟩
  have hc1u : isUpperAZ c1 = true := by
    rw [hu1, List.all_cons, Bool.and_eq_true] at hu
    exact hu.1
  have hc1nd : isDigitCh c1 = false := upper_not_digit c1 hc1u
  have hsgn : c0 ≠ '+' ∧ c0 ≠ '-' := by
    rcases hcd with hd | hdot
    · exact ⟨(digit_ne_special c0 hd).1, (digit_ne_special c0 hd).2.1⟩
    · subst hdot
      exact ⟨by decide, by decide⟩
  rw [pyFloatQ_eq_core_of (n ++ u) c0 (t0 ++ u) (by rw [hct, List.cons_append]) hsgn.1 hsgn.2]
  have hrec := splitFirstDot_recon n
  unfold numREOk at hn
  rcases hsp : splitFirstDot n with ⟨a, b⟩
  rw [hsp] at hrec hn
  cases b with
  | none =>
    rw [Bool.and_eq_true, Bool.not_eq_true'] at hn
    have hna : n = a := by simpa using hrec
    have htk : (n ++ u).takeWhile isDigitCh = a := by
      rw [hna, takeWhile_append_all isDigitCh a u hn.2, hu1,
        List.takeWhile_cons_of_neg (by simp [hc1nd]), List.append_nil]
    have hdr : (n ++ u).dropWhile isDigitCh = c1 :: t1 := by
      rw [hna, dropWhile_append_all isDigitCh a u hn.2, hu1,
        List.dropWhile_cons_of_neg (by simp [hc1nd])]
    rw [pyFloatCore_cons_nondot (n ++ u) t1 c1 hdr (upper_ne_special c1 hc1u).2.2.1,
      htk, hn.1]
    simp only [Bool.false_eq_true, if_false]
    rw [← hu1]
    exact pyFloatExp_upper_none _ u hu hune
  | some f =>
    rw [Bool.and_eq_true, Bool.and_eq_true, Bool.not_eq_true'] at hn
    obtain ⟨⟨ha, hf0⟩, hf⟩ := hn
    have hrec2 : n = a ++ '.' :: f := by simpa using hrec
    have hdr : (n ++ u).dropWhile isDigitCh = '.' :: (f ++ u) := by
      rw [hrec2, List.append_assoc, List.cons_append,
        dropWhile_append_all isDigitCh a ('.' :: (f ++ u)) ha,
        List.dropWhile_cons_of_neg (by decide)]
    have htk : (n ++ u).takeWhile isDigitCh = a := by
      rw [hrec2, List.append_assoc, List.cons_append,
        takeWhile_append_all isDigitCh a ('.' :: (f ++ u)) ha,
        List.takeWhile_cons_of_neg (by decide), List.append_nil]
    have htk2 : (f ++ u).takeWhile isDigitCh = f := by
      rw [takeWhile_append_all isDigitCh f u hf, hu1,
        List.takeWhile_cons_of_neg (by simp [hc1nd]), List.append_nil]
    have hdr2 : (f ++ u).dropWhile isDigitCh = u := by
      rw [dropWhile_append_all isDigitCh f u hf, hu1,
        List.dropWhile_cons_of_neg (by simp [hc1nd])]
    rw [pyFloatCore_dot (n ++ u) (f ++ u) hdr, htk, htk2, hdr2, hf0]
    simp only [Bool.and_false, Bool.false_eq_true, if_false]
    exact pyFloatExp_upper_none _ u hu hune

/-- `startsWithL` is list-prefix. -/
theorem startsWithL_iff (p l : List Char) : startsWithL p l = true ↔ ∃ y, l = p ++ y := by
  induction p generalizing l with
  | nil => simp [startsWithL]
  | cons a as ih =>
    cases l with
    | nil => simp [startsWithL]
    | cons b bs =>
      simp only [startsWithL, Bool.and_eq_true, decide_eq_true_eq, ih, List.cons_append,
        List.cons.injEq]
      constructor
      · rintro ⟨rfl, y, rfl⟩
        exact ⟨y, rfl, rfl⟩
      · rintro ⟨y, rfl, rfl⟩
        exact ⟨rfl, y, rfl⟩

/-- `hasSub` is list-infix. -/
theorem hasSub_iff (p l : List Char) : hasSub p l = true ↔ ∃ x y, l = x ++ p ++ y := by
  induction l with
  | nil =>
    simp only [hasSub, startsWithL_iff]
    constructor
    · rintro ⟨y, hy⟩
      exact ⟨[], y, by simpa using hy⟩
    · rintro ⟨x, y, hxy⟩
      rw [List.append_assoc] at hxy
      rcases List.append_eq_nil.mp hxy.symm with ⟨rfl, h2⟩
      exact ⟨y, by simpa using hxy⟩
  | cons c t ih =>
    simp only [hasSub, Bool.or_eq_true, startsWithL_iff, ih]
    constructor
    · rintro (⟨y, hy⟩ | ⟨x, y, hy⟩)
      · exact ⟨[], y, by simpa using hy⟩
      · exact ⟨c :: x, y, by simp [hy]⟩
    · rintro ⟨x, y, hxy⟩
      cases x with
      | nil => exact Or.inl ⟨y, by simpa using hxy⟩
      | cons c2 x2 =>
        rw [List.cons_append, List.cons_append] at hxy
        cases hxy
        exact Or.inr ⟨x2, y, rfl⟩

/-- Occurrence is preserved under reversing both pattern and text. -/
theorem hasSub_reverse (p l : List Char) :
    hasSub p.reverse l.reverse = true ↔ hasSub p l = true := by
  rw [hasSub_iff, hasSub_iff]
  constructor
  · rintro ⟨x, y, h⟩
    refine ⟨y.reverse, x.reverse, ?_⟩
    rw [← List.reverse_reverse l, h]
    simp
  · rintro ⟨x, y, rfl⟩
    exact ⟨y.reverse, x.reverse, by simp⟩

/-- A nonempty whitespace-free pattern occurs in `dropWhile isWsChar l` iff it
occurs in `l`. -/
theorem hasSub_dropWhile_ws (p l : List Char) (hp : p ≠ [])
    (hws : p.all (fun c => !isWsChar c) = true) :
    hasSub p (l.dropWhile isWsChar) = true ↔ hasSub p l = true := by
  induction l with
  | nil => simp
  | cons c t ih =>
    by_cases hc : isWsChar c = true
    · rw [List.dropWhile_cons_of_pos hc]
      rw [ih]
      have hstart : startsWithL p (c :: t) = false := by
        cases p with
        | nil => exact absurd rfl hp
        | cons q qs =>
          have hq : isWsChar q = false := by
            have := (List.all_eq_true.mp hws) q (List.mem_cons_self q qs)
            simpa using this
          simp only [startsWithL, Bool.and_eq_true, decide_eq_true_eq]
          rw [Bool.and_eq_false_iff]
          left
          simp only [decide_eq_false_iff_not]
          intro hqc
          rw [hqc, hc] at hq
          cases hq
      conv_rhs => rw [hasSub]
      rw [hstart]
      simp
    · rw [List.dropWhile_cons_of_neg hc]

/-- A nonempty whitespace-free pattern occurs in the stripped line iff it
occurs in the line: `str.strip()` removes only edge whitespace while such a
pattern contains none. -/
theorem hasSub_pyStrip (p l : List Char) (hp : p ≠ [])
    (hws : p.all (fun c => !isWsChar c) = true) :
    hasSub p (pyStripList isWsChar l) = true ↔ hasSub p l = true := by
  unfold pyStripList
  have hrevp : p.reverse ≠ [] := by
    intro h
    exact hp (by simpa using congrArg List.reverse h)
  have hrevws : p.reverse.all (fun c => !isWsChar c) = true := by
    simpa [List.all_reverse] using hws
  calc hasSub p ((l.dropWhile isWsChar).reverse.dropWhile isWsChar).reverse = true
      ↔ hasSub p.reverse ((l.dropWhile isWsChar).reverse.dropWhile isWsChar) = true := by
        rw [← hasSub_reverse p.reverse ((l.dropWhile isWsChar).reverse.dropWhile isWsChar)]
        rw [List.reverse_reverse]
    _ ↔ hasSub p.reverse (l.dropWhile isWsChar).reverse = true :=
        hasSub_dropWhile_ws p.reverse _ hrevp hrevws
    _ ↔ hasSub p (l.dropWhile isWsChar) = true := hasSub_reverse p _
    _ ↔ hasSub p l = true := hasSub_dropWhile_ws p l hp hws

/-- C10: for every line matched by one of the two share dialects, the status
of the returned event is `"accepted"` exactly when the substring `"accepted"`
or `"Accepted"` occurs anywhere in the line — it is recomputed from a
substring test, so the captured status token itself does not determine the
result. -/
theorem c10_share_status (now : Int) (line : String) (ev : ShareEvent)
    (h : parse_share_line now line = some ev) :
    ev.status = "accepted" ↔
      (hasSub "accepted".data line.data = true ∨ hasSub "Accepted".data line.data = true) := by
  simp only [parse_share_line] at h
  rcases hcore : (match parseShareDialect1 now (pyStripList isWsChar line.data) with
    | some r => some r
    | none => parseShareDialect2 now (pyStripList isWsChar line.data)) with _ | r
  · rw [hcore] at h
    cases h
  · rw [hcore] at h
    rw [Option.some_inj] at h
    subst h
    by_cases hacc : (hasSub "Accepted".data (pyStripList isWsChar line.data)
        || hasSub "accepted".data (pyStripList isWsChar line.data)) = true
    · rw [if_pos hacc]
      simp only [Bool.or_eq_true] at hacc
      have hT := hasSub_pyStrip "Accepted".data line.data (by decide) (by decide)
      have ht := hasSub_pyStrip "accepted".data line.data (by decide) (by decide)
      constructor
      · intro _
        rcases hacc with hA | ha
        · exact Or.inr (hT.mp hA)
        · exact Or.inl (ht.mp ha)
      · intro _
        rfl
    · rw [if_neg hacc]
      simp only [Bool.or_eq_true, not_or] at hacc
      have hT := hasSub_pyStrip "Accepted".data line.data (by decide) (by decide)
      have ht := hasSub_pyStrip "accepted".data line.data (by decide) (by decide)
      constructor
      · intro he
        have he2 : ("rejected" : String) = "accepted" := he
        exact absurd he2 (by decide)
      · rintro (ha | hA)
        · exact absurd (ht.mpr ha) (by simpa using hacc.2)
        · exact absurd (hT.mpr hA) (by simpa using hacc.1)

/-- C10 witness: a line whose captured status token is `ACCEPTED` (matched
case-insensitively) parses, yet its event status is `"rejected"`, because
neither `"accepted"` nor `"Accepted"` occurs in the line. -/
theorem c10_share_status_witness :
    parse_share_line 0 "Share ACCEPTED from 1abcdex.rig1 diff 100" =
        some { ts := 0, status := "rejected", address := "1abcdex", worker := some "rig1",
               rawdiff := "100", scaled := some 100, ip := none } ∧
      ((("rejected" : String) = "accepted") ↔
        (hasSub "accepted".data "Share ACCEPTED from 1abcdex.rig1 diff 100".data = true ∨
          hasSub "Accepted".data "Share ACCEPTED from 1abcdex.rig1 diff 100".data = true)) := by
  constructor
  · decide
  · exact c10_share_status 0 "Share ACCEPTED from 1abcdex.rig1 diff 100"
      { ts := 0, status := "rejected", address := "1abcdex", worker := some "rig1",
        rawdiff := "100", scaled := some 100, ip := none } (by decide)

/-- C6: two `UserStatsSnapshot` rows for the same wallet under the sub-account
addresses `1abcdex.a` and `1abcdex.b`, reporting 1-minute hashrates 1e12 and
2e12, reconcile to exactly one wallet row whose rendered 1-minute hashrate is
`"3.00T"` — the sub-account hashrates are summed and then rendered. -/
theorem c6_additivity :
    (_build_from_log_users c6DB 1000 WORKER_TIMEOUT).map
      (List.map (fun r => (r.wallet, r.hashrate1m))) = some [("1abcdex", "3.00T")] := by
  decide

/-- `parseHashrateCore` when `float()` succeeds: the parsed value is returned. -/
theorem parseHashrateCore_some (l : List Char) (q : ℚ)
    (hne : ¬((l = [] || l = ['—'] || l = ['-']) = true)) (hq : pyFloatQ l = some q) :
    parseHashrateCore l = q := by
  simp only [parseHashrateCore, hq]
  rw [if_neg hne]

/-- `parseHashrateCore` when `float()` fails: the anchored regex with the
`UNIT_MAP` multiplier decides the result. -/
theorem parseHashrateCore_none (l : List Char)
    (hne : ¬((l = [] || l = ['—'] || l = ['-']) = true)) (hq : pyFloatQ l = none) :
    parseHashrateCore l =
      (if ((l.reverse.takeWhile isUpperAZ).reverse.length ≤ 2 &&
          numREOk (l.take (l.length - (l.reverse.takeWhile isUpperAZ).reverse.length))) = true
       then numVal (l.take (l.length - (l.reverse.takeWhile isUpperAZ).reverse.length)) *
         unitMult (l.reverse.takeWhile isUpperAZ).reverse
       else 0) := by
  simp only [parseHashrateCore, hq]
  rw [if_neg hne]

/-- C4 (counterexample): `"5Z"` is neither a plain number nor carries a
`UNIT_MAP` unit letter, yet normalization returns 5, not 0 — the dict lookup
`UNIT_MAP.get(unit, 1.0)` silently defaults the multiplier to 1. -/
theorem c4_counterexample :
    _parse_hashrate_to_hs (some (SV.text "5Z")) = 5 ∧ (5 : ℚ) ≠ 0 := by
  constructor
  · decide
  · norm_num

/-- C4 (amended): after normalisation, every regex-shaped numeral followed by
at most two uppercase letters parses to the numeral's value times the
`UNIT_MAP` multiplier of the letter suffix, where unknown suffixes get the
default multiplier 1 (so e.g. `"5Z"` yields 5, not 0); empty strings and
strings the regex rejects (such as a three-letter suffix) yield 0; the strip,
uppercase and space-removal preprocessing applies, as in `" 1.5 th"` giving
1.5e12. -/
theorem c4_amended :
    (∀ n u : List Char, numREOk n = true → u.all isUpperAZ = true → u.length ≤ 2 →
      parseHashrateCore (n ++ u) = numVal n * unitMult u) ∧
    _parse_hashrate_to_hs (some (SV.text "")) = 0 ∧
    _parse_hashrate_to_hs (some (SV.text " 1.5 th")) = 1500000000000 ∧
    _parse_hashrate_to_hs (some (SV.text "5ZZZ")) = 0 ∧
    _parse_hashrate_to_hs (some (SV.text "5Z")) = 5 := by
  refine ⟨?_, by decide, by decide, by decide, by decide⟩
  intro n u hn hu hlen
  obtain ⟨c0, t0, hct, hcd⟩ := numREOk_head n hn
  have hc0dash : c0 ≠ '—' ∧ c0 ≠ '-' := by
    rcases hcd with hd | hdot
    · constructor
      · intro he
        subst he
        exact absurd hd (by decide)
      · exact (digit_ne_special c0 hd).2.1
    · subst hdot
      exact ⟨by decide, by decide⟩
  have hcons : n ++ u = c0 :: (t0 ++ u) := by
    rw [hct, List.cons_append]
  have hdash : ¬((n ++ u = [] || n ++ u = ['—'] || n ++ u = ['-']) = true) := by
    simp only [hcons, Bool.or_eq_true, decide_eq_true_eq, not_or]
    refine ⟨⟨by simp, ?_⟩, ?_⟩
    · intro he
      rw [List.cons.injEq] at he
      exact absurd he.1 hc0dash.1
    · intro he
      rw [List.cons.injEq] at he
      exact absurd he.1 hc0dash.2
  by_cases hu0 : u = []
  · subst hu0
    rw [List.append_nil] at hdash ⊢
    rw [parseHashrateCore_some n (numVal n) hdash (pyFloatQ_numRE n hn)]
    have h1 : unitMult [] = 1 := by norm_num [unitMult]
    rw [h1, mul_one]
  · rw [parseHashrateCore_none (n ++ u) hdash (pyFloatQ_append_upper_none n u hn hu hu0)]
    obtain ⟨d, r, hnr, hd⟩ := numREOk_last n hn
    have hurev : (n ++ u).reverse.takeWhile isUpperAZ = u.reverse := by
      rw [List.reverse_append,
        takeWhile_append_all isUpperAZ u.reverse n.reverse
          (by rw [List.all_reverse]; exact hu),
        hnr, List.takeWhile_cons_of_neg (by simp [digit_not_upper d hd]), List.append_nil]
    have htake : (n ++ u).take ((n ++ u).length - u.length) = n := by
      rw [List.length_append, Nat.add_sub_cancel]
      exact List.take_left n u
    rw [hurev, List.reverse_reverse, htake]
    have hcond : (u.length ≤ 2 && numREOk n) = true := by
      simp only [Bool.and_eq_true, decide_eq_true_eq]
      exact ⟨hlen, hn⟩
    rw [if_pos hcond]

/-- C4 amended witness: `"1500"` with suffix `"K"` normalizes to the numeral
value times the `K` multiplier. -/
theorem c4_amended_witness :
    parseHashrateCore ("1500".data ++ ['K']) = numVal "1500".data * unitMult ['K'] :=
  c4_amended.1 "1500".data ['K'] (by decide) (by decide) (by decide)

end CKP
